import Mathlib

/-!
Verification development for the ai-al-gaib orchestration core.

The definitions below are shallow embeddings of the TypeScript sources:
* `src/src/agents/claude/ClaudeCodeAdapter.ts` (permission scanner,
  ANSI stripping, `execute`),
* `src/src/orchestrator/Orchestrator.ts` (`runFullFlow` subtask loop),
* `src/unnamed/part_004` (legacy `Orchestrator` with plan persistence:
  `executePlanSubtasks`, `persistPlan`, `resolvePlanPath`,
  `loadPlanFromFile`),
* `src/unnamed/part_005` (first document: `Planner.createPlan`,
  `fallbackPlan`).

JavaScript machine integers/doubles appearing in the claims are exact here
(`content.length / 4` is an exact binary operation on these sizes), so they
are modelled with `Nat`/`Rat`.  External processes are modelled by explicit
outcome parameters; the file system is a finite map passed explicitly.
-/

namespace AlGaib

/-! ## A miniature regex engine

`detectPermissionRequest` in `ClaudeCodeAdapter.ts` matches each output
chunk against six JavaScript regexes.  We embed exactly those regexes as
`RE` values and decide `String.prototype.match` existence (a match at any
start index) with a fueled backtracking matcher. -/

inductive RE where
  | eps : RE
  | cls (f : Char → Bool) : RE
  | seq (a b : RE) : RE
  | alt (a b : RE) : RE
  | opt (a : RE) : RE
  | star (a : RE) : RE

def RE.size : RE → Nat
  | .eps => 1
  | .cls _ => 1
  | .seq a b => a.size + b.size + 1
  | .alt a b => a.size + b.size + 1
  | .opt a => a.size + 1
  | .star a => a.size + 1

/-- Fueled continuation-passing matcher: `mtch fuel r s k` decides whether
some prefix of `s` matches `r` with the rest accepted by `k`. -/
def RE.mtch : Nat → RE → List Char → (List Char → Bool) → Bool
  | 0, _, _, _ => false
  | _ + 1, .eps, s, k => k s
  | _ + 1, .cls _, [], _ => false
  | _ + 1, .cls f, c :: t, k => f c && k t
  | n + 1, .seq a b, s, k => RE.mtch n a s fun t => RE.mtch n b t k
  | n + 1, .alt a b, s, k => RE.mtch n a s k || RE.mtch n b s k
  | n + 1, .opt a, s, k => k s || RE.mtch n a s k
  | n + 1, .star a, s, k =>
      k s || RE.mtch n a s fun t =>
        if t.length < s.length then RE.mtch n (RE.star a) t k else false

/-- Does `r` match starting at the head of `s` (any end position)? -/
def RE.matchHere (r : RE) (s : List Char) : Bool :=
  RE.mtch ((r.size + 1) * (s.length + 2)) r s fun _ => true

/-- JS `String.match` existence: a match starting at some index of `s`. -/
def RE.srch : RE → List Char → Bool
  | r, [] => r.matchHere []
  | r, s@(_ :: t) => r.matchHere s || RE.srch r t

/-- The apostrophe character `'` appearing in the quote classes of the
source regexes. -/
def apos : Char := Char.ofNat 39

/-- Case-insensitive single character (all six regexes carry the `i` flag
except the fence regexes, which contain no letters needing it). -/
def lit (c : Char) : RE := .cls fun x => x.toLower == c.toLower

def istr (s : String) : RE := s.data.foldr (fun c r => .seq (lit c) r) .eps

def seqs : List RE → RE
  | [] => .eps
  | [r] => r
  | r :: t => .seq r (seqs t)

def rplus (r : RE) : RE := .seq r (.star r)

/-- JS `.` (no `s` flag): any character except line terminators. -/
def dotJs : RE := .cls fun c =>
  !(c == '\n' || c == '\r' || c == Char.ofNat 0x2028 || c == Char.ofNat 0x2029)

/-- The class `['"]`. -/
def quoteCls : RE := .cls fun c => c == '"' || c == apos

/-- The class `[^'"?\n]`. -/
def notQQNl : RE := .cls fun c => !(c == '"' || c == apos || c == '?' || c == '\n')

inductive PermType where
  | file_write | file_edit | bash | unknown
deriving DecidableEq, Repr

/-- `/Do you want to (write|create).*?['"]?([^'"?\n]+)['"]?\?/i` -/
def reWrite : RE :=
  seqs [istr "Do you want to ", .alt (istr "write") (istr "create"),
        .star dotJs, .opt quoteCls, rplus notQQNl, .opt quoteCls, lit '?']

/-- `/Do you want to edit ['"]?([^'"?\n]+)['"]?\?/i` -/
def reEdit : RE :=
  seqs [istr "Do you want to edit ", .opt quoteCls, rplus notQQNl,
        .opt quoteCls, lit '?']

/-- `/Do you want to run ['"]?([^'"?\n]+)['"]?\?/i` -/
def reRun : RE :=
  seqs [istr "Do you want to run ", .opt quoteCls, rplus notQQNl,
        .opt quoteCls, lit '?']

/-- `/Allow this action\?/i` -/
def reAllow : RE := istr "Allow this action?"

/-- `/\[y\/n\]/i` -/
def reYn : RE := istr "[y/n]"

/-- `/\(y\)es.*?\(n\)o/i` -/
def reYesNo : RE := seqs [istr "(y)es", .star dotJs, istr "(n)o"]

/-- The ordered pattern table of `ClaudeCodeAdapter.detectPermissionRequest`
(lines 171-178). -/
def patterns : List (RE × PermType) :=
  [(reWrite, .file_write), (reEdit, .file_edit), (reRun, .bash),
   (reAllow, .unknown), (reYn, .unknown), (reYesNo, .unknown)]

def scanTable : List (RE × PermType) → String → Option PermType
  | [], _ => none
  | p :: rest, s => if p.1.srch s.data then some p.2 else scanTable rest s

/-- `ClaudeCodeAdapter.detectPermissionRequest`, restricted to the
classification it returns (the `id` counter, matched-group description and
trailing raw-text window carry no information relevant to the claims). -/
def detectPermissionRequest (data : String) : Option PermType :=
  scanTable patterns data

/-! ## `stripAnsi` (ClaudeCodeAdapter.ts lines 194-198)

Two global replaces: first `/\x1B\[[0-9;]*[a-zA-Z]/g`, then
`/\x1B\][^\x07]*\x07/g`, each erased.  JS `replace` scans left to right;
on a failed match attempt it advances one character. -/

def escChar : Char := Char.ofNat 27
def belChar : Char := Char.ofNat 7

def isCsiParam (c : Char) : Bool := c.isDigit || c == ';'

def isAsciiAlpha (c : Char) : Bool :=
  ('a' ≤ c && c ≤ 'z') || ('A' ≤ c && c ≤ 'Z')

def stripCsiAux : Nat → List Char → List Char
  | 0, s => s
  | _, [] => []
  | n + 1, c :: rest =>
    if c == escChar then
      match rest with
      | '[' :: r2 =>
        match r2.dropWhile isCsiParam with
        | d :: r4 =>
          if isAsciiAlpha d then stripCsiAux n r4 else c :: stripCsiAux n rest
        | [] => c :: stripCsiAux n rest
      | _ => c :: stripCsiAux n rest
    else c :: stripCsiAux n rest

def stripOscAux : Nat → List Char → List Char
  | 0, s => s
  | _, [] => []
  | n + 1, c :: rest =>
    if c == escChar then
      match rest with
      | ']' :: r2 =>
        match r2.dropWhile (fun x => !(x == belChar)) with
        | _ :: r4 => stripOscAux n r4
        | [] => c :: stripOscAux n rest
      | _ => c :: stripOscAux n rest
    else c :: stripOscAux n rest

def stripAnsi (s : String) : String :=
  let l1 := stripCsiAux (s.data.length + 1) s.data
  ⟨stripOscAux (l1.length + 1) l1⟩

/-! ## Data model (src/src/types/plan.ts, task.ts, agent.ts)

TypeScript enums are strings at runtime and the sources cast arbitrary
strings into `AgentType` (`executorAgent as AgentType`), so agent, task
type and priority are modelled as `String`.  JS `Date` is modelled by its
epoch milliseconds (`Nat`; the sources only create post-epoch dates). -/

inductive Status where
  | pending | running | completed | failed
deriving DecidableEq, Repr

structure Subtask where
  id : String
  title : String
  description : String
  agent : String
  priority : Nat
  inputContextFiles : List String
  outputFile : String
  dependencies : List String
  status : Status
deriving DecidableEq, Repr

structure Plan where
  id : String
  taskId : String
  subtasks : List Subtask
  estimatedTokens : Nat
  createdAt : Nat
deriving DecidableEq, Repr

structure MTask where
  id : String
  type : String
  description : String
  priority : String
  contextFiles : Option (List String)
  constraints : Option (List String)
  createdAt : Nat
deriving DecidableEq, Repr

/-! ## JSON values and `JSON.parse`

`Planner.createPlan` runs `JSON.parse` on extracted text, and the plan
record store round-trips structures through `fs-extra`'s
`writeJson`/`readJson`.  JSON numbers are exact decimals, embedded
unnormalized as `mant / 10 ^ exp10` (every number a claim touches is a
small natural, far below any IEEE-754 rounding).  Surrogate-pair `\u`
escapes and duplicate object keys do not occur in any claim input;
duplicates resolve to the last occurrence as in JS. -/

structure JNum where
  mant : Int
  exp10 : Nat
deriving DecidableEq, Repr

inductive JVal where
  | null : JVal
  | bool (b : Bool) : JVal
  | num (q : JNum) : JVal
  | str (s : String) : JVal
  | arr (xs : List JVal) : JVal
  | obj (fields : List (String × JVal)) : JVal

/-- JS property access `v.k` (undefined on non-objects); duplicate keys:
last occurrence wins, as in `JSON.parse`. -/
def JVal.getField : JVal → String → Option JVal
  | .obj fs, k => fs.reverse.lookup k
  | _, _ => none

/-- JS truthiness of a parsed JSON value (`NaN` cannot result from
`JSON.parse`). -/
def jTruthy : JVal → Bool
  | .null => false
  | .bool b => b
  | .num q => !(q.mant == 0)
  | .str s => !(s == "")
  | .arr _ => true
  | .obj _ => true

/-- Rendering used where the source feeds an `any`-typed JSON value into a
`string`-typed field; every claim input hits only the `.str` case. -/
def jStr : JVal → String
  | .str s => s
  | .null => "null"
  | .bool true => "true"
  | .bool false => "false"
  | .num q => toString q.mant ++ (if q.exp10 == 0 then "" else "e-" ++ toString q.exp10)
  | .arr _ => "[array]"
  | .obj _ => "[object Object]"

def isJsonWs (c : Char) : Bool :=
  c == ' ' || c == '\t' || c == '\n' || c == '\r'

def skipWs (s : List Char) : List Char := s.dropWhile isJsonWs

def hexVal (c : Char) : Option Nat :=
  if '0' ≤ c && c ≤ '9' then some (c.toNat - 48)
  else if 'a' ≤ c && c ≤ 'f' then some (c.toNat - 87)
  else if 'A' ≤ c && c ≤ 'F' then some (c.toNat - 55)
  else none

/-- JSON string body after the opening quote. -/
def pStrAux : Nat → List Char → List Char → Option (String × List Char)
  | 0, _, _ => none
  | n + 1, acc, s =>
    match s with
    | [] => none
    | '"' :: r => some (⟨acc.reverse⟩, r)
    | '\\' :: e :: r =>
      if e == '"' then pStrAux n ('"' :: acc) r
      else if e == '\\' then pStrAux n ('\\' :: acc) r
      else if e == '/' then pStrAux n ('/' :: acc) r
      else if e == 'b' then pStrAux n (Char.ofNat 8 :: acc) r
      else if e == 'f' then pStrAux n (Char.ofNat 12 :: acc) r
      else if e == 'n' then pStrAux n ('\n' :: acc) r
      else if e == 'r' then pStrAux n ('\r' :: acc) r
      else if e == 't' then pStrAux n ('\t' :: acc) r
      else if e == 'u' then
        match r with
        | a :: b :: c :: d :: r2 =>
          match hexVal a, hexVal b, hexVal c, hexVal d with
          | some x, some y, some z, some w =>
            pStrAux n (Char.ofNat (((x * 16 + y) * 16 + z) * 16 + w) :: acc) r2
          | _, _, _, _ => none
        | _ => none
      else none
    | c :: r =>
      if c.toNat < 32 then none else pStrAux n (c :: acc) r

def pStr (s : List Char) : Option (String × List Char) :=
  pStrAux (s.length + 1) [] s

def digitsVal (ds : List Char) : Nat :=
  ds.foldl (fun a c => a * 10 + (c.toNat - 48)) 0

/-- JSON number grammar: `-? int frac? exp?`. -/
def pNum (s : List Char) : Option (JNum × List Char) :=
  let (neg, s1) := match s with
    | '-' :: r => (true, r)
    | _ => (false, s)
  let ds := s1.takeWhile Char.isDigit
  let r1 := s1.dropWhile Char.isDigit
  if ds.isEmpty then none
  else if 1 < ds.length && ds.head? == some '0' then none
  else
    let fr : Option (Nat × Nat × List Char) :=
      match r1 with
      | '.' :: r2 =>
        let fs := r2.takeWhile Char.isDigit
        if fs.isEmpty then none
        else some (digitsVal ds * 10 ^ fs.length + digitsVal fs, fs.length,
                   r2.dropWhile Char.isDigit)
      | _ => some (digitsVal ds, 0, r1)
    match fr with
    | none => none
    | some (mant0, exp0, r3) =>
      let ex : Option (JNum × List Char) :=
        match r3 with
        | c :: r4 =>
          if c == 'e' || c == 'E' then
            let (eneg, r5) := match r4 with
              | '+' :: r6 => (false, r6)
              | '-' :: r6 => (true, r6)
              | _ => (false, r4)
            let es := r5.takeWhile Char.isDigit
            if es.isEmpty then none
            else
              let e := digitsVal es
              some (if eneg then ⟨(mant0 : Int), exp0 + e⟩
                    else ⟨(mant0 * 10 ^ e : Nat), exp0⟩,
                    r5.dropWhile Char.isDigit)
          else some (⟨(mant0 : Int), exp0⟩, r3)
        | [] => some (⟨(mant0 : Int), exp0⟩, r3)
      match ex with
      | none => none
      | some (j, r7) =>
        some (if neg then ⟨-j.mant, j.exp10⟩ else j, r7)

def litPrefix : List Char → List Char → Option (List Char)
  | [], s => some s
  | c :: cs, d :: ds => if c == d then litPrefix cs ds else none
  | _ :: _, [] => none

mutual

def pVal : Nat → List Char → Option (JVal × List Char)
  | 0, _ => none
  | n + 1, s0 =>
    let s := skipWs s0
    match s with
    | [] => none
    | c :: t =>
      if c == '"' then (pStr t).map fun p => (.str p.1, p.2)
      else if c == 't' then (litPrefix ['r', 'u', 'e'] t).map fun r => (.bool true, r)
      else if c == 'f' then (litPrefix ['a', 'l', 's', 'e'] t).map fun r => (.bool false, r)
      else if c == 'n' then (litPrefix ['u', 'l', 'l'] t).map fun r => (.null, r)
      else if c == '[' then
        match skipWs t with
        | ']' :: r => some (.arr [], r)
        | t' => pElems n t' []
      else if c == '{' then
        match skipWs t with
        | '}' :: r => some (.obj [], r)
        | t' => pFields n t' []
      else (pNum s).map fun p => (.num p.1, p.2)

def pElems : Nat → List Char → List JVal → Option (JVal × List Char)
  | 0, _, _ => none
  | n + 1, s, acc =>
    match pVal n s with
    | none => none
    | some (v, r) =>
      match skipWs r with
      | ',' :: r2 => pElems n r2 (acc ++ [v])
      | ']' :: r2 => some (.arr (acc ++ [v]), r2)
      | _ => none

def pFields : Nat → List Char → List (String × JVal) → Option (JVal × List Char)
  | 0, _, _ => none
  | n + 1, s, acc =>
    match skipWs s with
    | '"' :: t =>
      match pStr t with
      | none => none
      | some (k, r) =>
        match skipWs r with
        | ':' :: r2 =>
          match pVal n r2 with
          | none => none
          | some (v, r3) =>
            match skipWs r3 with
            | ',' :: r4 => pFields n r4 (acc ++ [(k, v)])
            | '}' :: r4 => some (.obj (acc ++ [(k, v)]), r4)
            | _ => none
        | _ => none
    | _ => none

end

/-- `JSON.parse`: whole-input parse, trailing whitespace only. -/
def jparse (s : String) : Option JVal :=
  match pVal (s.data.length + 2) s.data with
  | some (v, r) => if (skipWs r).isEmpty then some v else none
  | none => none

/-! ## Planner (src/unnamed/part_005, first document)

`createPlan` shells out to an agent CLI and is otherwise pure.  The
invocation is abstracted as an `InvokeOutcome` (resolved stdout on exit
code 0, or the rejection/spawn error); `randomUUID` is abstracted as a
call-indexed id supply and `Date.now()`/`new Date()` as a single instant
`now` (the two are read milliseconds apart in the source and no claim
depends on their difference). -/

inductive InvokeOutcome where
  | ok (raw : String) : InvokeOutcome
  | error (msg : String) : InvokeOutcome

instance {ε α : Type} [DecidableEq ε] [DecidableEq α] : DecidableEq (Except ε α) :=
  fun x y =>
    match x, y with
    | .ok a, .ok b =>
      if h : a = b then isTrue (by rw [h]) else isFalse (by simp [h])
    | .error a, .error b =>
      if h : a = b then isTrue (by rw [h]) else isFalse (by simp [h])
    | .ok _, .error _ => isFalse (by simp)
    | .error _, .ok _ => isFalse (by simp)

def btick : Char := Char.ofNat 96

def fence3 : List Char := [btick, btick, btick]

def fenceJson : List Char := fence3 ++ ['j', 's', 'o', 'n']

/-- Characters before the earliest occurrence of ` ``` ` (the lazy
`([\s\S]*?)` capture), or `none` when no closing fence exists. -/
def findClose : List Char → Option (List Char)
  | [] => none
  | c :: t =>
    if fence3.isPrefixOf (c :: t) then some []
    else (findClose t).map (c :: ·)

/-- Leftmost-match semantics of `raw.match(/OPEN([\s\S]*?)```/)`:
the first position where the opening fence is followed by a closing
fence, capturing the text between. -/
def fenceCapture (openT : List Char) : List Char → Option (List Char)
  | [] => none
  | s@(_ :: t) =>
    if openT.isPrefixOf s then
      match findClose (s.drop openT.length) with
      | some cap => some cap
      | none => fenceCapture openT t
    else fenceCapture openT t

/-- JS `String.prototype.trim` (whitespace = spaces, tabs, line
terminators for every input in scope). -/
def jsTrim (s : String) : String :=
  ⟨((s.data.dropWhile Char.isWhitespace).reverse.dropWhile Char.isWhitespace).reverse⟩

/-- Planner.ts lines 142-143: the fenced-block extraction and the
`jsonMatch[1]?.trim() || rawOutput.trim()` fallback chain. -/
def chooseJsonString (raw : String) : String :=
  let m := match fenceCapture fenceJson raw.data with
    | some cap => some cap
    | none => fenceCapture fence3 raw.data
  match m with
  | some cap =>
    let g := jsTrim ⟨cap⟩
    if g == "" then jsTrim raw else g
  | none => jsTrim raw

def mapIdx' (f : Nat → α → β) : Nat → List α → List β
  | _, [] => []
  | i, a :: t => f i a :: mapIdx' f (i + 1) t

/-- JS `a || b || ...`: the first truthy value of the chain. -/
def pickTruthy : List (Option JVal) → Option JVal
  | [] => none
  | some v :: t => if jTruthy v then some v else pickTruthy t
  | none :: t => pickTruthy t

def defaultResultFile (taskId : String) (i : Nat) : String :=
  ".ai-al-gaib/contexts/" ++ taskId ++ "/results/" ++ toString i ++ "-result.md"

/-- The subtask constructor of `parsedPlan.subtasks.map` (part_005 lines
150-170). -/
def buildSubtask (taskId executorAgent : String) (uuid : Nat → String)
    (index : Nat) (st : JVal) : Subtask :=
  let title := ((pickTruthy [st.getField "title", st.getField "name",
      (st.getField "task").map fun v => .str ((jStr v).take 50)]).map jStr).getD
      ("Subtask " ++ toString (index + 1))
  let description := ((pickTruthy [st.getField "description", st.getField "task",
      st.getField "instruction", st.getField "details"]).map jStr).getD ""
  { id := uuid index
    title := title
    description := description
    agent := executorAgent
    priority := index + 1
    inputContextFiles := if index == 0 then [] else [defaultResultFile taskId index]
    outputFile := ((pickTruthy [st.getField "outputFile"]).map jStr).getD
      (defaultResultFile taskId (index + 1))
    dependencies := if index == 0 then [] else ["prev-task"]
    status := .pending }

/-- `Planner.fallbackPlan` (part_005 lines 181-210). -/
def fallbackPlan (task : MTask) (planId executorAgent : String)
    (uuid : Nat → String) (now : Nat) : Plan :=
  let ctx := ".ai-al-gaib/contexts/" ++ task.id ++ "/results/"
  { id := planId
    taskId := task.id
    subtasks := [
      { id := uuid 0
        title := "Analyze: " ++ task.description.take 20 ++ "..."
        description := "Analyze the user request: " ++ task.description
        agent := executorAgent
        priority := 1
        inputContextFiles := []
        outputFile := ctx ++ "1-analysis.md"
        dependencies := []
        status := .pending },
      { id := uuid 1
        title := "Execute: " ++ task.description.take 20 ++ "..."
        description := "Implement based on analysis: " ++ task.description
        agent := executorAgent
        priority := 2
        inputContextFiles := [ctx ++ "1-analysis.md"]
        outputFile := ctx ++ "2-result.md"
        dependencies := []
        status := .pending }]
    estimatedTokens := 0
    createdAt := now }

/-- `Planner.createPlan` (part_005 lines 22-179).  A CLI invocation error
is caught and answered with the fallback plan; a `JSON.parse` failure
throws `'Planner failed to generate a valid JSON plan.'` (modelled as
`Except.error`); a parsed value without an array `subtasks` field makes
`parsedPlan.subtasks.map` throw a `TypeError` in JS, modelled as the
`.error "TypeError..."` branch. -/
def createPlan (task : MTask) (executorAgent : String) (invoke : InvokeOutcome)
    (uuid : Nat → String) (now : Nat) : Except String Plan :=
  let planId := "plan-" ++ toString now
  match invoke with
  | .error _ => .ok (fallbackPlan task planId executorAgent uuid now)
  | .ok rawOutput =>
    let jsonString := chooseJsonString rawOutput
    match jparse jsonString with
    | none => .error "Planner failed to generate a valid JSON plan."
    | some parsedPlan =>
      match parsedPlan.getField "subtasks" with
      | some (.arr sts) =>
        .ok { id := planId
              taskId := task.id
              subtasks := mapIdx' (buildSubtask task.id executorAgent uuid) 0 sts
              estimatedTokens := 0
              createdAt := now }
      | _ => .error "TypeError: parsedPlan.subtasks.map is not a function"

/-! ## ClaudeCodeAdapter.execute (ClaudeCodeAdapter.ts lines 15-85)

The pty session is abstracted as a `PtyOutcome`: the process exits with a
code and accumulated output, or the run's abort signal fires (the handler
kills the pty and rejects with `'Aborted'`).  The only fallible operation
inside `localFallbackExecution` is the `execa('npx', ...)` call of its
Next.js branch, abstracted as `FbOutcome`.  Files are a map from path to
content. -/

inductive PtyOutcome where
  | exits (code : Nat) (out : String) : PtyOutcome
  | aborted : PtyOutcome

inductive FbOutcome where
  | ok : FbOutcome
  | raises (msg : String) : FbOutcome

def Fs : Type := String → Option String

def fsSet (fs : Fs) (p v : String) : Fs := fun q => if q == p then some v else fs q

def lowerStr (s : String) : String := ⟨s.data.map Char.toLower⟩

def isInfixB (needle : List Char) : List Char → Bool
  | [] => needle.isEmpty
  | l@(_ :: t) => needle.isPrefixOf l || isInfixB needle t

/-- JS `String.prototype.includes`. -/
def strIncludes (s sub : String) : Bool := isInfixB sub.data s.data

/-- The mock markdown written by `localFallbackExecution` (lines 265-277). -/
def mockContent (subtaskId resultLog : String) : String :=
  "--- \nagent: claude-code-local\nsubtask_id: " ++ subtaskId ++
  "\nstatus: success\ntokens_used: 0\n---\n\n# Execution Result\n\n" ++
  "**Status**: Success\n**Action**: Local Execution Strategy\n**Log**: " ++
  resultLog ++ "\n"

/-- `localFallbackExecution` (lines 230-280): returns the mock content it
writes to the output file, or the error it rethrows.  The Korean
folder-name extraction regex only feeds the log text, which no claim
inspects; the default app name is used. -/
def localFallbackExecution (subtaskId desc : String) (fbO : FbOutcome) :
    Except String String :=
  let d := lowerStr desc
  if strIncludes d "next" &&
      (strIncludes d "create" || strIncludes d "project" || strIncludes d "구성") then
    match fbO with
    | .raises m => .error m
    | .ok => .ok (mockContent subtaskId "Successfully created Next.js project in ./my-next-app")
  else if strIncludes d "analyze" || strIncludes d "read" then
    .ok (mockContent subtaskId "Performed static analysis (simulated). Codebase looks healthy.")
  else
    .ok (mockContent subtaskId
      "No specific local action matched. Please install 'claude-code' for full AI capabilities.")

structure ExecRes where
  success : Bool
  error : Option String
  tokensUsed : Rat
  killed : Bool

/-- The catch block of `execute` (lines 54-79): any error from the try
block (including the `'Aborted'` rejection installed by the abort
listener) is swallowed and the local fallback attempted. -/
def adapterCatch (subtaskId desc outputFile : String) (fbO : FbOutcome)
    (killed : Bool) (fs : Fs) : ExecRes × Fs :=
  match localFallbackExecution subtaskId desc fbO with
  | .ok mock =>
    ({ success := true, error := none, tokensUsed := 0, killed := killed },
     fsSet fs outputFile mock)
  | .error m =>
    ({ success := false, error := some m, tokensUsed := 0, killed := killed }, fs)

/-- `ClaudeCodeAdapter.execute`.  On exit code 0 the ANSI-stripped
transcript is written to `request.outputFile`, then `fs.pathExists` is
checked, the file is read back and `tokensUsed = content.length / 4`
(exact in IEEE-754 for these sizes, hence `Rat`).  A non-zero exit or the
abort rejection falls into `adapterCatch`. -/
def execute (subtaskId desc outputFile : String) (ptyO : PtyOutcome)
    (fbO : FbOutcome) (fs : Fs) : ExecRes × Fs :=
  match ptyO with
  | .exits code out =>
    if code == 0 then
      let stdout := stripAnsi out
      let fs1 := fsSet fs outputFile stdout
      match fs1 outputFile with
      | some content =>
        ({ success := true, error := none,
           tokensUsed := (content.length : Rat) / 4, killed := false }, fs1)
      | none =>
        -- `throw new Error('Output file not created: ...')` lands in the catch
        adapterCatch subtaskId desc outputFile fbO false fs1
    else adapterCatch subtaskId desc outputFile fbO false fs
  | .aborted => adapterCatch subtaskId desc outputFile fbO true fs

/-! ## Orchestrator.runFullFlow subtask loop (Orchestrator.ts lines 134-227)

Events record the caller-visible callbacks (`onSubtaskStart` /
`onSubtaskComplete` / `onSubtaskFail`, identified by subtask index) plus
the pty kill and the two terminal log lines.  `abortDuring = some k`
means `cancel()` fires while subtask `k`'s adapter call is awaited: the
adapter's pty promise rejects `'Aborted'` and every later
`signal.aborted` check sees `true`.  The final states are `completed`
(the loop ran off its end or broke out of a failure — both reach
`log('All tasks completed!')`) and `cancelled` (the `'Cancelled'` throw
caught at lines 218-223). -/

structure MSubtask where
  id : String
  agent : String
  description : String
  outputFile : String
deriving DecidableEq, Repr

inductive RunEvent where
  | start (i : Nat) : RunEvent
  | complete (i : Nat) : RunEvent
  | fail (i : Nat) (err : String) : RunEvent
  | ptyKilled (i : Nat) : RunEvent
  | logAllCompleted : RunEvent
  | logCancelled : RunEvent
deriving DecidableEq, Repr

inductive RunOutcome where
  | completed | cancelled
deriving DecidableEq, Repr

structure AdapterEnv where
  pty : Nat → PtyOutcome
  fb : Nat → FbOutcome

def orchestratorAgents : List String := ["claude", "codex", "gemini"]

def registeredAgent (a : String) : Bool := orchestratorAgents.contains a

def notFoundMsg (a : String) : String := "Agent " ++ a ++ " not found!"

def effPty (env : AdapterEnv) (abortDuring : Option Nat) (i : Nat) : PtyOutcome :=
  if abortDuring == some i then .aborted else env.pty i

def abortedBefore (abortDuring : Option Nat) (i : Nat) : Bool :=
  match abortDuring with
  | some k => decide (k < i)
  | none => false

/-- The pty-kill observation of subtask `i`: the abort listener kills the
child process exactly when the session ends by abort. -/
def killedEvents (env : AdapterEnv) (abortDuring : Option Nat) (i : Nat) :
    List RunEvent :=
  match effPty env abortDuring i with
  | .aborted => [.ptyKilled i]
  | _ => []

/-- JS `result.error || 'Unknown error'`. -/
def orDefaultErr (e : Option String) : String :=
  match e with
  | some m => if m == "" then "Unknown error" else m
  | none => "Unknown error"

def runLoopAux (env : AdapterEnv) (abortDuring : Option Nat) :
    Nat → Fs → List MSubtask → List RunEvent × RunOutcome × Fs
  | _, fs, [] => ([.logAllCompleted], .completed, fs)
  | i, fs, s :: rest =>
    if abortedBefore abortDuring i then ([.logCancelled], .cancelled, fs)
    else if !registeredAgent s.agent then
      -- line 142: `continue` — the next subtask is still evaluated
      let r := runLoopAux env abortDuring (i + 1) fs rest
      (.fail i (notFoundMsg s.agent) :: r.1, r.2)
    else
      let er := execute s.id s.description s.outputFile
        (effPty env abortDuring i) (env.fb i) fs
      if er.1.success then
        let r := runLoopAux env abortDuring (i + 1) er.2 rest
        (.start i :: killedEvents env abortDuring i ++ .complete i :: r.1, r.2)
      else
        -- line 196: `break`, after which line 216 still logs completion
        (.start i :: killedEvents env abortDuring i ++
           [.fail i (orDefaultErr er.1.error), .logAllCompleted],
         .completed, er.2)

def runFullFlowLoop (subs : List MSubtask) (env : AdapterEnv)
    (abortDuring : Option Nat) (fs : Fs) : List RunEvent × RunOutcome × Fs :=
  runLoopAux env abortDuring 0 fs subs

/-! ## Legacy Orchestrator.executePlanSubtasks (src/unnamed/part_004 lines 161-236)

This variant owns the Plan Record Store: statuses are mutated in place
and the plan is re-persisted around every transition.  `persist` events
carry the full status snapshot at the moment of the write. -/

inductive LOutcome where
  | success : LOutcome
  | failure (err : Option String) : LOutcome

inductive LEvent where
  | persist (statuses : List Status) : LEvent
  | start (i : Nat) : LEvent
  | complete (i : Nat) : LEvent
  | fail (i : Nat) (err : String) : LEvent
  | logErrors : LEvent
  | logAllCompleted : LEvent
deriving DecidableEq, Repr

def legacyAgents : List String := ["claude", "gemini"]

def legacyRegistered (a : String) : Bool := legacyAgents.contains a

def legacyAux (behav : Nat → LOutcome) (persistOn : Bool) :
    Nat → List Status → List MSubtask → List LEvent × List Status
  | _, σ, [] => ([.logAllCompleted], σ)
  | i, σ, s :: rest =>
    if !legacyRegistered s.agent then
      -- lines 177-183: report, set executionFailed, break
      ([.fail i (notFoundMsg s.agent), .logErrors], σ)
    else
      let σ1 := σ.set i .running
      let pre := (if persistOn then [LEvent.persist σ1] else []) ++ [LEvent.start i]
      match behav i with
      | .success =>
        let σ2 := σ1.set i .completed
        let post := LEvent.complete i :: (if persistOn then [LEvent.persist σ2] else [])
        let r := legacyAux behav persistOn (i + 1) σ2 rest
        (pre ++ post ++ r.1, r.2)
      | .failure e =>
        let σ2 := σ1.set i .failed
        (pre ++ LEvent.fail i (orDefaultErr e) ::
           (if persistOn then [LEvent.persist σ2] else []) ++ [LEvent.logErrors], σ2)

/-- `executePlanSubtasks` on a freshly planned run (all statuses
`pending`, as produced by the Planner). -/
def executePlanSubtasks (subs : List MSubtask) (behav : Nat → LOutcome)
    (persistOn : Bool) : List LEvent × List Status :=
  legacyAux behav persistOn 0 (List.replicate subs.length .pending) subs

/-! ## Plan Record Store (src/unnamed/part_004 lines 102-159)

`persistPlan` writes a `{version, plan, task}` envelope with
`fs-extra.writeJson`; `loadPlanFromFile` reads it back with `readJson`
and rebuilds `Date` fields with `new Date(isoText)`.  The file system is
a map from path to stored JSON value (`writeJson`/`readJson` compose to
the identity on JSON-representable data).  `Date.prototype.toISOString`
and ISO parsing are implemented with the Gregorian civil-date algorithm;
the model covers the post-epoch, pre-year-10000 dates the system creates
(`Date.now()`-based). -/

def JFs : Type := String → Option JVal

def jfsSet (fs : JFs) (p : String) (v : JVal) : JFs :=
  fun q => if q == p then some v else fs q

/-- Civil date from days since 1970-01-01 (Gregorian). -/
def civilFromDays (days : Nat) : Nat × Nat × Nat :=
  let z := days + 719468
  let era := z / 146097
  let doe := z % 146097
  let yoe := (doe - doe / 1460 + doe / 36524 - doe / 146096) / 365
  let y := yoe + era * 400
  let doy := doe - (365 * yoe + yoe / 4 - yoe / 100)
  let mp := (5 * doy + 2) / 153
  let d := doy - (153 * mp + 2) / 5 + 1
  let m := if mp < 10 then mp + 3 else mp - 9
  (if m ≤ 2 then y + 1 else y, m, d)

/-- Days since 1970-01-01 from a civil date; `none` before the epoch. -/
def daysFromCivil (y m d : Nat) : Option Nat :=
  let y1 := if m ≤ 2 then y - 1 else y
  let era := y1 / 400
  let yoe := y1 % 400
  let mp := if 2 < m then m - 3 else m + 9
  let doy := (153 * mp + 2) / 5 + d - 1
  let doe := yoe * 365 + yoe / 4 - yoe / 100 + doy
  let zdays := era * 146097 + doe
  if zdays < 719468 then none else some (zdays - 719468)

def padNum (w n : Nat) : String :=
  let s := toString n
  ⟨List.replicate (w - s.data.length) '0'⟩ ++ s

/-- `Date.prototype.toISOString` for epoch milliseconds (years 1970-9999,
the range produced by `Date.now()` here). -/
def dateToIso (ms : Nat) : String :=
  let days := ms / 86400000
  let rem := ms % 86400000
  let c := civilFromDays days
  padNum 4 c.1 ++ "-" ++ padNum 2 c.2.1 ++ "-" ++ padNum 2 c.2.2 ++ "T" ++
  padNum 2 (rem / 3600000) ++ ":" ++ padNum 2 (rem / 60000 % 60) ++ ":" ++
  padNum 2 (rem / 1000 % 60) ++ "." ++ padNum 3 (rem % 1000) ++ "Z"

def digN (c : Char) : Option Nat :=
  if c.isDigit then some (c.toNat - 48) else none

/-- `new Date(s)` on the canonical ISO form written by `dateToIso`; other
inputs (a JS `Invalid Date`) are `none`. -/
def isoToDate (s : String) : Option Nat :=
  match s.data with
  | [y1, y2, y3, y4, '-', o1, o2, '-', a1, a2, 'T', h1, h2, ':', n1, n2, ':',
     c1, c2, '.', x1, x2, x3, 'Z'] => do
    let y ← do
      let a ← digN y1; let b ← digN y2; let c ← digN y3; let d ← digN y4
      pure (((a * 10 + b) * 10 + c) * 10 + d)
    let mo ← do let a ← digN o1; let b ← digN o2; pure (a * 10 + b)
    let dd ← do let a ← digN a1; let b ← digN a2; pure (a * 10 + b)
    let hh ← do let a ← digN h1; let b ← digN h2; pure (a * 10 + b)
    let mi ← do let a ← digN n1; let b ← digN n2; pure (a * 10 + b)
    let ss ← do let a ← digN c1; let b ← digN c2; pure (a * 10 + b)
    let mmm ← do
      let a ← digN x1; let b ← digN x2; let c ← digN x3
      pure ((a * 10 + b) * 10 + c)
    let days ← daysFromCivil y mo dd
    pure (days * 86400000 + hh * 3600000 + mi * 60000 + ss * 1000 + mmm)
  | _ => none

def encodeStatus : Status → String
  | .pending => "pending"
  | .running => "running"
  | .completed => "completed"
  | .failed => "failed"

def decodeStatus : String → Option Status
  | "pending" => some .pending
  | "running" => some .running
  | "completed" => some .completed
  | "failed" => some .failed
  | _ => none

def encodeSubtask (s : Subtask) : JVal :=
  .obj [("id", .str s.id), ("title", .str s.title),
        ("description", .str s.description), ("agent", .str s.agent),
        ("priority", .num ⟨(s.priority : Int), 0⟩),
        ("inputContextFiles", .arr (s.inputContextFiles.map .str)),
        ("outputFile", .str s.outputFile),
        ("dependencies", .arr (s.dependencies.map .str)),
        ("status", .str (encodeStatus s.status))]

def encodePlanJ (p : Plan) : JVal :=
  .obj [("id", .str p.id), ("taskId", .str p.taskId),
        ("subtasks", .arr (p.subtasks.map encodeSubtask)),
        ("estimatedTokens", .num ⟨(p.estimatedTokens : Int), 0⟩),
        ("createdAt", .str (dateToIso p.createdAt))]

def encodeTaskJ (t : MTask) : JVal :=
  .obj ([("id", .str t.id), ("type", .str t.type),
         ("description", .str t.description), ("priority", .str t.priority)] ++
        (match t.contextFiles with
         | some cf => [("contextFiles", .arr (cf.map .str))]
         | none => []) ++
        (match t.constraints with
         | some cs => [("constraints", .arr (cs.map .str))]
         | none => []) ++
        [("createdAt", .str (dateToIso t.createdAt))])

/-- The versioned envelope of `persistPlan` (lines 144-155). -/
def encodePlanPayload (p : Plan) (t : MTask) : JVal :=
  .obj [("version", .num ⟨1, 0⟩), ("plan", encodePlanJ p), ("task", encodeTaskJ t)]

def decodeStr : JVal → Option String
  | .str s => some s
  | _ => none

def decodeNat : JVal → Option Nat
  | .num j => if j.exp10 == 0 then
      match j.mant with
      | .ofNat n => some n
      | _ => none
    else none
  | _ => none

def decodeStrList : List JVal → Option (List String)
  | [] => some []
  | .str s :: t => (decodeStrList t).map (s :: ·)
  | _ => none

/-- `new Date(x)` as applied by `loadPlanFromFile`; a non-string or
non-canonical text (JS `Invalid Date`) is a decode failure. -/
def decodeDate : JVal → Option Nat
  | .str s => isoToDate s
  | _ => none

/-- A field that must hold an array of strings. -/
def decodeStrListField : Option JVal → Option (List String)
  | some (.arr xs) => decodeStrList xs
  | _ => none

/-- An optional field (`contextFiles?` / `constraints?`): absent is fine,
present must be an array of strings. -/
def decodeOptStrListField : Option JVal → Option (Option (List String))
  | none => some none
  | some (.arr xs) => (decodeStrList xs).map some
  | some _ => none

def decodeSubtask (v : JVal) : Option Subtask :=
  Option.bind ((v.getField "id").bind decodeStr) fun id =>
  Option.bind ((v.getField "title").bind decodeStr) fun title =>
  Option.bind ((v.getField "description").bind decodeStr) fun description =>
  Option.bind ((v.getField "agent").bind decodeStr) fun agent =>
  Option.bind ((v.getField "priority").bind decodeNat) fun priority =>
  Option.bind (decodeStrListField (v.getField "inputContextFiles")) fun icf =>
  Option.bind ((v.getField "outputFile").bind decodeStr) fun outputFile =>
  Option.bind (decodeStrListField (v.getField "dependencies")) fun deps =>
  Option.bind (((v.getField "status").bind decodeStr).bind decodeStatus) fun status =>
  some { id := id, title := title, description := description, agent := agent,
         priority := priority, inputContextFiles := icf, outputFile := outputFile,
         dependencies := deps, status := status }

def decodeSubtaskList : List JVal → Option (List Subtask)
  | [] => some []
  | v :: t =>
    Option.bind (decodeSubtask v) fun s =>
    Option.bind (decodeSubtaskList t) fun r =>
    some (s :: r)

/-- The `subtasks` field: must hold an array of subtask records. -/
def decodeSubtasksField : Option JVal → Option (List Subtask)
  | some (.arr xs) => decodeSubtaskList xs
  | _ => none

def decodePlanJ (v : JVal) : Option Plan :=
  Option.bind ((v.getField "id").bind decodeStr) fun id =>
  Option.bind ((v.getField "taskId").bind decodeStr) fun taskId =>
  Option.bind (decodeSubtasksField (v.getField "subtasks")) fun subtasks =>
  Option.bind ((v.getField "estimatedTokens").bind decodeNat) fun estimatedTokens =>
  Option.bind ((v.getField "createdAt").bind decodeDate) fun createdAt =>
  some { id := id, taskId := taskId, subtasks := subtasks,
         estimatedTokens := estimatedTokens, createdAt := createdAt }

def decodeTaskJ (v : JVal) : Option MTask :=
  Option.bind ((v.getField "id").bind decodeStr) fun id =>
  Option.bind ((v.getField "type").bind decodeStr) fun type =>
  Option.bind ((v.getField "description").bind decodeStr) fun description =>
  Option.bind ((v.getField "priority").bind decodeStr) fun priority =>
  Option.bind (decodeOptStrListField (v.getField "contextFiles")) fun contextFiles =>
  Option.bind (decodeOptStrListField (v.getField "constraints")) fun constraints =>
  Option.bind ((v.getField "createdAt").bind decodeDate) fun createdAt =>
  some { id := id, type := type, description := description, priority := priority,
         contextFiles := contextFiles, constraints := constraints,
         createdAt := createdAt }

def planStorageDir (cwd : String) : String := cwd ++ "/.ai-al-gaib/plans"

def isAbsolutePath (p : String) : Bool :=
  match p.data with
  | '/' :: _ => true
  | _ => false

/-- `path.resolve(cwd, p)` for the inputs in scope (no `.`/`..`
normalization occurs in any claim input). -/
def presolve (cwd p : String) : String :=
  if isAbsolutePath p then p else cwd ++ "/" ++ p

def strEndsWith (s suf : String) : Bool := suf.data.isSuffixOf s.data

/-- `Orchestrator.resolvePlanPath` (part_004 lines 102-118). -/
def resolvePlanPath (cwd : String) (fs : JFs) (identifier : String) :
    Except String String :=
  let absoluteInput := presolve cwd identifier
  if (fs absoluteInput).isSome then .ok absoluteInput
  else
    let normalizedName :=
      if strEndsWith identifier ".json" then identifier else identifier ++ ".json"
    let defaultPath := planStorageDir cwd ++ "/" ++ normalizedName
    if (fs defaultPath).isSome then .ok defaultPath
    else .error ("Plan file not found for identifier: " ++ identifier)

/-- `Orchestrator.persistPlan` (part_004 lines 140-159): returns the
target path and the updated store (`ensureDir` is idempotent directory
creation, invisible in the path-to-content map). -/
def persistPlan (cwd : String) (fs : JFs) (plan : Plan) (task : MTask)
    (existingPath : Option String) : String × JFs :=
  let targetPath := existingPath.getD (planStorageDir cwd ++ "/" ++ plan.id ++ ".json")
  (targetPath, jfsSet fs targetPath (encodePlanPayload plan task))

/-- `Orchestrator.loadPlanFromFile` (part_004 lines 120-138).  JS builds
the objects by spread without validation; a payload whose fields do not
fit the `Plan`/`Task` shape (which `readJson` of a persisted record
always does) is modelled as the malformed error. -/
def loadPlanFromFile (fs : JFs) (planPath : String) :
    Except String (Plan × MTask) :=
  match fs planPath with
  | none => .error ("ENOENT: no such file or directory, open " ++ planPath)
  | some payload =>
    match payload.getField "plan", payload.getField "task" with
    | some pj, some tj =>
      if jTruthy pj && jTruthy tj then
        match decodePlanJ pj, decodeTaskJ tj with
        | some plan, some task => .ok (plan, task)
        | _, _ => .error ("Plan file \"" ++ planPath ++ "\" is malformed.")
      else .error ("Plan file \"" ++ planPath ++ "\" is missing required data.")
    | _, _ => .error ("Plan file \"" ++ planPath ++ "\" is missing required data.")

/-! ## Fixtures and derived checkers -/

def emptyFs : Fs := fun _ => none

def execSuccess (s : MSubtask) (p : PtyOutcome) (f : FbOutcome) : Bool :=
  (execute s.id s.description s.outputFile p f emptyFs).1.success

/-- The linear-chain invariant claimed of parsed plans: each subtask after
the first lists exactly the previous subtask's `outputFile` as input. -/
def chainOk (p : Plan) : Bool :=
  (p.subtasks.zip (p.subtasks.drop 1)).all fun q =>
    q.2.inputContextFiles == [q.1.outputFile]

def cTask : MTask :=
  { id := "task-1", type := "code_generation", description := "demo task",
    priority := "medium", contextFiles := none, constraints := none, createdAt := 0 }

def cUuid : Nat → String := fun n => "uuid-" ++ toString n

def rawOne : String :=
  "```json\n\x7b\"subtasks\":[\x7b\"title\":\"A\",\"description\":\"d\"\x7d]\x7d\n```"

def rawCustom : String :=
  "```json\n\x7b\"subtasks\":[\x7b\"title\":\"A\",\"description\":\"d\",\"outputFile\":\"custom.md\"\x7d,\x7b\"title\":\"B\",\"description\":\"e\"\x7d]\x7d\n```"

def cPlanOne : Plan :=
  { id := "plan-7", taskId := "task-1",
    subtasks := [
      { id := "uuid-0", title := "A", description := "d", agent := "claude",
        priority := 1, inputContextFiles := [],
        outputFile := ".ai-al-gaib/contexts/task-1/results/1-result.md",
        dependencies := [], status := .pending }],
    estimatedTokens := 0, createdAt := 7 }

def cPlan9 : Plan :=
  { id := "plan-99", taskId := "task-1",
    subtasks := [
      { id := "u1", title := "A", description := "d", agent := "claude",
        priority := 1, inputContextFiles := [], outputFile := "o1.md",
        dependencies := [], status := .completed },
      { id := "u2", title := "B", description := "e", agent := "gemini",
        priority := 2, inputContextFiles := ["o1.md"], outputFile := "o2.md",
        dependencies := ["prev-task"], status := .pending }],
    estimatedTokens := 0, createdAt := 1700000000123 }

def cTask9 : MTask :=
  { id := "task-1", type := "code_generation", description := "demo",
    priority := "medium", contextFiles := some ["a.md"], constraints := none,
    createdAt := 1700000000000 }

def cSubClaude : MSubtask :=
  { id := "s0", agent := "claude", description := "create next app",
    outputFile := "/w/out.md" }

def cSubPlain : MSubtask :=
  { id := "s1", agent := "claude", description := "write docs",
    outputFile := "/w/out2.md" }

def cSubNone : MSubtask :=
  { id := "sX", agent := "nonexistent", description := "x",
    outputFile := "/w/o.md" }

def cSubCodex : MSubtask :=
  { id := "sC", agent := "codex", description := "y", outputFile := "/w/oc.md" }

def cEnvOk : AdapterEnv := { pty := fun _ => .exits 0 "hi", fb := fun _ => .ok }

def cEnvAbortFail : AdapterEnv :=
  { pty := fun _ => .exits 0 "hi", fb := fun _ => .raises "spawn npx ENOENT" }

def cEnvFail : AdapterEnv :=
  { pty := fun _ => .exits 1 "", fb := fun _ => .raises "boom" }

/-! # Theorems -/

/-! ## Helper lemmas -/

theorem scanTable_none (tbl : List (RE × PermType)) (s : String)
    (h : ∀ p ∈ tbl, p.1.srch s.data = false) : scanTable tbl s = none := by
  induction tbl with
  | nil => rfl
  | cons p t ih =>
    simp only [scanTable, h p (List.mem_cons_self p t), Bool.false_eq_true, if_false]
    exact ih fun q hq => h q (List.mem_cons_of_mem p hq)

theorem scanTable_first (pre : List (RE × PermType)) (r : RE) (ty : PermType)
    (post : List (RE × PermType)) (s : String)
    (hpre : ∀ p ∈ pre, p.1.srch s.data = false) (hr : r.srch s.data = true) :
    scanTable (pre ++ (r, ty) :: post) s = some ty := by
  induction pre with
  | nil => simp [scanTable, hr]
  | cons q t ih =>
    simp only [List.cons_append, scanTable, hpre q (List.mem_cons_self q t),
      Bool.false_eq_true, if_false]
    exact ih fun p hp => hpre p (List.mem_cons_of_mem q hp)

theorem mapIdx'_getElem? (f : Nat → α → β) (i k : Nat) (l : List α) :
    (mapIdx' f i l)[k]? = (l[k]?).map (f (i + k)) := by
  induction l generalizing i k with
  | nil => simp [mapIdx']
  | cons a t ih =>
    cases k with
    | zero => simp [mapIdx']
    | succ k =>
      have harith : i + 1 + k = i + (k + 1) := by omega
      simp [mapIdx', ih (i + 1) k, harith]

/-! ## C8: the permission scanner -/

/-- **C8**: `detectPermissionRequest` returns `null` for any chunk matched
by none of its patterns, classifies the four canonical prompts as
`file_write` / `file_edit` / `bash` / `unknown` respectively, and
evaluates its pattern table in fixed priority order with the first match
winning (so any decomposition of the table whose earlier rows all fail
determines the result). -/
theorem C8_permission_scanner :
    (∀ s : String, (∀ p ∈ patterns, p.1.srch s.data = false) →
        detectPermissionRequest s = none)
    ∧ detectPermissionRequest "Do you want to write to \"out.txt\"?" = some .file_write
    ∧ detectPermissionRequest "Do you want to edit \"main.go\"?" = some .file_edit
    ∧ detectPermissionRequest "Do you want to run \"rm -rf tmp\"?" = some .bash
    ∧ detectPermissionRequest "[y/n]" = some .unknown
    ∧ (∀ (s : String) (pre : List (RE × PermType)) (r : RE) (ty : PermType) post,
        patterns = pre ++ (r, ty) :: post →
        (∀ p ∈ pre, p.1.srch s.data = false) → r.srch s.data = true →
        detectPermissionRequest s = some ty) := by
  refine ⟨?_, by decide, by decide, by decide, by decide, ?_⟩
  · intro s h
    exact scanTable_none patterns s h
  · intro s pre r ty post hsplit hpre hr
    unfold detectPermissionRequest
    rw [hsplit]
    exact scanTable_first pre r ty post s hpre hr

/-- Witness for C8 at concrete inputs. -/
theorem C8_permission_scanner_witness :
    detectPermissionRequest "ordinary build output" = none
    ∧ detectPermissionRequest "Do you want to run \"ls\"?" = some .bash := by
  constructor
  · exact C8_permission_scanner.1 "ordinary build output" (by decide)
  · exact C8_permission_scanner.2.2.2.2.2 "Do you want to run \"ls\"?"
      [(reWrite, .file_write), (reEdit, .file_edit)] reRun .bash
      [(reAllow, .unknown), (reYn, .unknown), (reYesNo, .unknown)]
      rfl (by decide) (by decide)

/-! ## C10: the success path of `execute` -/

/-- **C10**: after a zero-exit interactive session, `execute` itself
writes the ANSI-stripped transcript to the subtask's output file before
the existence check, so for every prior file-system state the check
passes and the result is a success whose file content is the transcript
and whose `tokensUsed` is the transcript length divided by 4. -/
theorem C10_execute_success :
    ∀ (sid desc outFile out : String) (fbO : FbOutcome) (fs : Fs),
      (execute sid desc outFile (.exits 0 out) fbO fs).1.success = true
      ∧ (execute sid desc outFile (.exits 0 out) fbO fs).1.error = none
      ∧ (execute sid desc outFile (.exits 0 out) fbO fs).2 outFile
          = some (stripAnsi out)
      ∧ (execute sid desc outFile (.exits 0 out) fbO fs).1.tokensUsed
          = ((stripAnsi out).length : Rat) / 4
      ∧ (execute sid desc outFile (.exits 0 out) fbO fs).1.killed = false := by
  intro sid desc outFile out fbO fs
  simp [execute, fsSet]

/-! ## C5: planner fallback on invocation error -/

/-- **C5**: for every task and every planner invocation error (spawn
error, missing binary, non-zero exit), `createPlan` does not throw: it
returns the fixed two-subtask fallback plan, titled `Analyze: ...` then
`Execute: ...`, with both subtasks assigned to the configured executor
agent and chained through the analysis file. -/
theorem C5_planner_fallback :
    ∀ (task : MTask) (executorAgent msg : String) (uuid : Nat → String) (now : Nat),
      createPlan task executorAgent (.error msg) uuid now
        = .ok (fallbackPlan task ("plan-" ++ toString now) executorAgent uuid now)
      ∧ (fallbackPlan task ("plan-" ++ toString now) executorAgent uuid now).subtasks.map
          Subtask.agent = [executorAgent, executorAgent]
      ∧ (fallbackPlan task ("plan-" ++ toString now) executorAgent uuid now).subtasks.map
          Subtask.title
        = ["Analyze: " ++ task.description.take 20 ++ "...",
           "Execute: " ++ task.description.take 20 ++ "..."]
      ∧ (fallbackPlan task ("plan-" ++ toString now) executorAgent uuid now).subtasks.map
          Subtask.inputContextFiles
        = [[], [".ai-al-gaib/contexts/" ++ task.id ++ "/results/" ++ "1-analysis.md"]] := by
  intro task executorAgent msg uuid now
  refine ⟨rfl, ?_, ?_, ?_⟩ <;> simp [fallbackPlan]

/-! ## C6: parse failure is thrown, not recovered -/

/-- **C6 counterexample**: a planner response that is not valid JSON does
not yield the fallback plan — `createPlan` surfaces the thrown error. -/
theorem C6_parse_failure_counterexample :
    createPlan cTask "claude" (.ok "this is not json") cUuid 7
      = .error "Planner failed to generate a valid JSON plan." := by decide

/-- **C6 amended**: for every planner response whose extracted text does
not parse as JSON, `createPlan` throws
`'Planner failed to generate a valid JSON plan.'` to the caller; the
fixed fallback plan is returned only for invocation errors (see C5). -/
theorem C6_parse_failure_amended :
    ∀ (task : MTask) (executorAgent raw : String) (uuid : Nat → String) (now : Nat),
      jparse (chooseJsonString raw) = none →
      createPlan task executorAgent (.ok raw) uuid now
        = .error "Planner failed to generate a valid JSON plan." := by
  intro task executorAgent raw uuid now h
  simp [createPlan, h]

/-- Witness for C6 at a concrete unparseable response. -/
theorem C6_parse_failure_witness :
    createPlan cTask "gemini" (.ok "absolutely not json either") cUuid 3
      = .error "Planner failed to generate a valid JSON plan." :=
  C6_parse_failure_amended cTask "gemini" "absolutely not json either" cUuid 3 rfl

/-! ## C7: the linear-chain invariant -/

set_option maxRecDepth 16000 in
/-- **C7 counterexample**: a successfully parsed response in which the
first subtask carries its own `outputFile` (`"custom.md"`) produces a
plan where subtask 1's `inputContextFiles` still names the default
`1-result.md`, not the previous subtask's `outputFile` — the claimed
chain invariant fails. -/
theorem C7_linear_chain_counterexample :
    (createPlan cTask "claude" (.ok rawCustom) cUuid 7).map chainOk = .ok false
    ∧ (createPlan cTask "claude" (.ok rawCustom) cUuid 7).map
        (fun p => (p.subtasks.map Subtask.outputFile,
                   p.subtasks.map Subtask.inputContextFiles))
      = .ok (["custom.md", ".ai-al-gaib/contexts/task-1/results/2-result.md"],
             [[], [".ai-al-gaib/contexts/task-1/results/1-result.md"]]) := by
  exact ⟨by decide, by decide⟩

/-- **C7 amended**: for every successfully parsed planner response, the
subtask at index 0 has empty `inputContextFiles` and every subtask at
index `i > 0` has exactly the default `i-result.md` context entry; this
equals the previous subtask's `outputFile` exactly when that subtask's
`outputFile` is the default name (i.e. the response supplied no truthy
`outputFile` override).  The canonical one-subtask fenced response yields
exactly one subtask with empty inputs and the default output name. -/
theorem C7_linear_chain_amended :
    (∀ (task : MTask) (executorAgent raw : String) (uuid : Nat → String)
        (now : Nat) (p : Plan),
      createPlan task executorAgent (.ok raw) uuid now = .ok p →
      (∀ (i : Nat) (st : Subtask), p.subtasks[i]? = some st →
          st.inputContextFiles = if i = 0 then [] else [defaultResultFile task.id i])
      ∧ (∀ (i : Nat) (st st' : Subtask), p.subtasks[i]? = some st →
          p.subtasks[i + 1]? = some st' →
          st.outputFile = defaultResultFile task.id (i + 1) →
          st'.inputContextFiles = [st.outputFile]))
    ∧ createPlan cTask "claude" (.ok rawOne) cUuid 7 = .ok cPlanOne
    ∧ cPlanOne.subtasks.map (fun s => (s.inputContextFiles, s.outputFile))
      = [([], defaultResultFile "task-1" 1)] := by
  refine ⟨?_, by decide, by decide⟩
  intro task executorAgent raw uuid now p h
  have hmain : ∀ (i : Nat) (st : Subtask), p.subtasks[i]? = some st →
      st.inputContextFiles = if i = 0 then [] else [defaultResultFile task.id i] := by
    simp only [createPlan] at h
    split at h
    · simp at h
    · split at h
      · rename_i sts _
        simp only [Except.ok.injEq] at h
        subst h
        intro i st hst
        simp only [mapIdx'_getElem?, Nat.zero_add] at hst
        cases hsi : sts[i]? with
        | none => rw [hsi] at hst; simp at hst
        | some sv =>
          rw [hsi] at hst
          simp only [Option.map_some', Option.some.injEq] at hst
          subst hst
          cases i with
          | zero => simp [buildSubtask]
          | succ n => simp [buildSubtask]
      · simp at h
  refine ⟨hmain, ?_⟩
  intro i st st' _ hst' hout
  rw [hmain (i + 1) st' hst', hout]
  simp

/-- Witness for C7 at the canonical one-subtask response. -/
theorem C7_linear_chain_witness :
    ∃ st : Subtask, cPlanOne.subtasks[0]? = some st ∧ st.inputContextFiles = [] := by
  obtain ⟨st, hst⟩ : ∃ st, cPlanOne.subtasks[0]? = some st := ⟨_, rfl⟩
  have h := (C7_linear_chain_amended.1 cTask "claude" rawOne cUuid 7 cPlanOne
      C7_linear_chain_amended.2.1).1 0 st hst
  exact ⟨st, hst, by simpa using h⟩

/-! ## C9: the plan record store -/

theorem decodeStatus_encodeStatus (st : Status) :
    decodeStatus (encodeStatus st) = some st := by
  cases st <;> rfl

theorem decodeStrList_map (l : List String) :
    decodeStrList (l.map .str) = some l := by
  induction l with
  | nil => rfl
  | cons a t ih => simp [decodeStrList, ih]

theorem decodeSubtask_encodeSubtask (s : Subtask) :
    decodeSubtask (encodeSubtask s) = some s := by
  have h1 : ((encodeSubtask s).getField "id").bind decodeStr = some s.id := rfl
  have h2 : ((encodeSubtask s).getField "title").bind decodeStr = some s.title := rfl
  have h3 : ((encodeSubtask s).getField "description").bind decodeStr
      = some s.description := rfl
  have h4 : ((encodeSubtask s).getField "agent").bind decodeStr = some s.agent := rfl
  have h5 : ((encodeSubtask s).getField "priority").bind decodeNat
      = some s.priority := rfl
  have h6 : decodeStrListField ((encodeSubtask s).getField "inputContextFiles")
      = some s.inputContextFiles := by
    have hx : (encodeSubtask s).getField "inputContextFiles"
        = some (.arr (s.inputContextFiles.map .str)) := rfl
    rw [hx]
    simp [decodeStrListField, decodeStrList_map]
  have h7 : ((encodeSubtask s).getField "outputFile").bind decodeStr
      = some s.outputFile := rfl
  have h8 : decodeStrListField ((encodeSubtask s).getField "dependencies")
      = some s.dependencies := by
    have hx : (encodeSubtask s).getField "dependencies"
        = some (.arr (s.dependencies.map .str)) := rfl
    rw [hx]
    simp [decodeStrListField, decodeStrList_map]
  have h9 : (((encodeSubtask s).getField "status").bind decodeStr).bind decodeStatus
      = some s.status := by
    have hx : ((encodeSubtask s).getField "status").bind decodeStr
        = some (encodeStatus s.status) := rfl
    rw [hx, Option.some_bind, decodeStatus_encodeStatus]
  simp only [decodeSubtask, h1, h2, h3, h4, h5, h6, h7, h8, h9, Option.some_bind]

theorem decodeSubtaskList_map (l : List Subtask) :
    decodeSubtaskList (l.map encodeSubtask) = some l := by
  induction l with
  | nil => rfl
  | cons a t ih =>
    simp only [List.map_cons, decodeSubtaskList, decodeSubtask_encodeSubtask, ih,
      Option.some_bind]

theorem decodePlanJ_encodePlanJ (p : Plan)
    (hd : isoToDate (dateToIso p.createdAt) = some p.createdAt) :
    decodePlanJ (encodePlanJ p) = some p := by
  have h1 : ((encodePlanJ p).getField "id").bind decodeStr = some p.id := rfl
  have h2 : ((encodePlanJ p).getField "taskId").bind decodeStr = some p.taskId := rfl
  have h3 : decodeSubtasksField ((encodePlanJ p).getField "subtasks")
      = some p.subtasks := by
    have hx : (encodePlanJ p).getField "subtasks"
        = some (.arr (p.subtasks.map encodeSubtask)) := rfl
    rw [hx]
    simp [decodeSubtasksField, decodeSubtaskList_map]
  have h4 : ((encodePlanJ p).getField "estimatedTokens").bind decodeNat
      = some p.estimatedTokens := rfl
  have h5 : ((encodePlanJ p).getField "createdAt").bind decodeDate
      = some p.createdAt := by
    have hx : (encodePlanJ p).getField "createdAt"
        = some (.str (dateToIso p.createdAt)) := rfl
    rw [hx, Option.some_bind]
    simp only [decodeDate]
    exact hd
  simp only [decodePlanJ, h1, h2, h3, h4, h5, Option.some_bind]

theorem decodeTaskJ_encodeTaskJ (t : MTask)
    (hd : isoToDate (dateToIso t.createdAt) = some t.createdAt) :
    decodeTaskJ (encodeTaskJ t) = some t := by
  have h1 : ((encodeTaskJ t).getField "id").bind decodeStr = some t.id := by
    obtain ⟨id, ty, de, pr, cf, cs, ca⟩ := t
    cases cf <;> cases cs <;> rfl
  have h2 : ((encodeTaskJ t).getField "type").bind decodeStr = some t.type := by
    obtain ⟨id, ty, de, pr, cf, cs, ca⟩ := t
    cases cf <;> cases cs <;> rfl
  have h3 : ((encodeTaskJ t).getField "description").bind decodeStr
      = some t.description := by
    obtain ⟨id, ty, de, pr, cf, cs, ca⟩ := t
    cases cf <;> cases cs <;> rfl
  have h4 : ((encodeTaskJ t).getField "priority").bind decodeStr
      = some t.priority := by
    obtain ⟨id, ty, de, pr, cf, cs, ca⟩ := t
    cases cf <;> cases cs <;> rfl
  have h5 : decodeOptStrListField ((encodeTaskJ t).getField "contextFiles")
      = some t.contextFiles := by
    obtain ⟨id, ty, de, pr, cf, cs, ca⟩ := t
    cases cf with
    | none => cases cs <;> rfl
    | some cfl =>
      have hx : ∀ cs', (encodeTaskJ ⟨id, ty, de, pr, some cfl, cs', ca⟩).getField
          "contextFiles" = some (.arr (cfl.map .str)) := by
        intro cs'; cases cs' <;> rfl
      cases cs <;>
        simp [hx, decodeOptStrListField, decodeStrList_map]
  have h6 : decodeOptStrListField ((encodeTaskJ t).getField "constraints")
      = some t.constraints := by
    obtain ⟨id, ty, de, pr, cf, cs, ca⟩ := t
    cases cs with
    | none => cases cf <;> rfl
    | some csl =>
      have hx : ∀ cf', (encodeTaskJ ⟨id, ty, de, pr, cf', some csl, ca⟩).getField
          "constraints" = some (.arr (csl.map .str)) := by
        intro cf'; cases cf' <;> rfl
      cases cf <;>
        simp [hx, decodeOptStrListField, decodeStrList_map]
  have h7 : ((encodeTaskJ t).getField "createdAt").bind decodeDate
      = some t.createdAt := by
    have hx : (encodeTaskJ t).getField "createdAt"
        = some (.str (dateToIso t.createdAt)) := by
      obtain ⟨id, ty, de, pr, cf, cs, ca⟩ := t
      cases cf <;> cases cs <;> rfl
    rw [hx, Option.some_bind]
    simp only [decodeDate]
    exact hd
  simp only [decodeTaskJ, h1, h2, h3, h4, h5, h6, h7, Option.some_bind]

/-- **C9**: persisting a plan (with its task) and loading it back by bare
plan id yields structurally equal records — statuses, dependencies and
timestamps included, with dates serialized to canonical ISO text and
reparsed on load (the round-trip property of the JS `Date` codec is the
stated hypothesis, discharged by computation at any concrete instant);
an identifier resolving as an absolute or relative path is loaded from
that path; an identifier resolving nowhere fails with the not-found
error. -/
theorem C9_plan_record_store :
    (∀ (cwd : String) (fs : JFs) (plan : Plan) (task : MTask),
       isoToDate (dateToIso plan.createdAt) = some plan.createdAt →
       isoToDate (dateToIso task.createdAt) = some task.createdAt →
       strEndsWith plan.id ".json" = false →
       fs (presolve cwd plan.id) = none →
       presolve cwd plan.id ≠ planStorageDir cwd ++ "/" ++ plan.id ++ ".json" →
       resolvePlanPath cwd (persistPlan cwd fs plan task none).2 plan.id
         = .ok (persistPlan cwd fs plan task none).1
       ∧ loadPlanFromFile (persistPlan cwd fs plan task none).2
           (persistPlan cwd fs plan task none).1 = .ok (plan, task))
    ∧ (∀ (cwd : String) (fs : JFs) (id : String) (v : JVal),
         fs (presolve cwd id) = some v →
         resolvePlanPath cwd fs id = .ok (presolve cwd id))
    ∧ (∀ (cwd : String) (fs : JFs) (id : String),
         fs (presolve cwd id) = none →
         fs (planStorageDir cwd ++ "/" ++
             (if strEndsWith id ".json" then id else id ++ ".json")) = none →
         resolvePlanPath cwd fs id
           = .error ("Plan file not found for identifier: " ++ id)) := by
  refine ⟨?_, ?_, ?_⟩
  · intro cwd fs plan task hd1 hd2 hjson habs hne
    have htgt : (persistPlan cwd fs plan task none).1
        = planStorageDir cwd ++ "/" ++ plan.id ++ ".json" := rfl
    have hlook : (persistPlan cwd fs plan task none).2
        (planStorageDir cwd ++ "/" ++ plan.id ++ ".json")
        = some (encodePlanPayload plan task) := by
      simp [persistPlan, jfsSet]
    have habs' : (persistPlan cwd fs plan task none).2 (presolve cwd plan.id) = none := by
      simp only [persistPlan, jfsSet, Option.getD_none]
      rw [beq_eq_false_iff_ne.mpr hne]
      simpa using habs
    constructor
    · simp only [resolvePlanPath, habs', Option.isSome_none, Bool.false_eq_true,
        if_false, hjson]
      rw [htgt]
      have : planStorageDir cwd ++ "/" ++ (plan.id ++ ".json")
          = planStorageDir cwd ++ "/" ++ plan.id ++ ".json" :=
        (String.append_assoc _ _ _).symm
      rw [this, hlook]
      simp
    · rw [htgt]
      have hp : (encodePlanPayload plan task).getField "plan"
          = some (encodePlanJ plan) := rfl
      have ht : (encodePlanPayload plan task).getField "task"
          = some (encodeTaskJ task) := rfl
      have hjt1 : jTruthy (encodePlanJ plan) = true := rfl
      have hjt2 : jTruthy (encodeTaskJ task) = true := rfl
      simp only [loadPlanFromFile, hlook, hp, ht, hjt1, hjt2, Bool.and_self,
        if_true, decodePlanJ_encodePlanJ plan hd1, decodeTaskJ_encodeTaskJ task hd2]
  · intro cwd fs id v hv
    simp [resolvePlanPath, hv]
  · intro cwd fs id h1 h2
    simp [resolvePlanPath, h1, h2]

/-- Witness for C9: a concrete two-subtask plan (with a `completed` and a
`pending` status, a dependency reference and millisecond timestamps)
persisted into an empty store and loaded back by bare id. -/
theorem C9_plan_record_store_witness :
    loadPlanFromFile (persistPlan "/w" (fun _ => none) cPlan9 cTask9 none).2
        (persistPlan "/w" (fun _ => none) cPlan9 cTask9 none).1
      = .ok (cPlan9, cTask9) :=
  (C9_plan_record_store.1 "/w" (fun _ => none) cPlan9 cTask9
    (by decide) (by decide) (by decide) rfl (by decide)).2

/-! ## C3: write-before-notify ordering in the persisting executor -/

theorem getElem?_setCases {α : Type} {l : List α} {n m : Nat} {a b : α}
    (h : (l.set n a)[m]? = some b) : (m = n ∧ b = a) ∨ l[m]? = some b := by
  by_cases hmn : m = n
  · subst hmn
    rw [List.getElem?_set_self'] at h
    cases hl : l[m]? with
    | none => rw [hl] at h; simp at h
    | some c => rw [hl] at h; simp at h; exact Or.inl ⟨rfl, h.symm⟩
  · rw [List.getElem?_set_ne (fun hh => hmn hh.symm)] at h
    exact Or.inr h

theorem legacy_shape_unreg (behav : Nat → LOutcome) (persistOn : Bool) (i : Nat)
    (σ : List Status) (s : MSubtask) (rest : List MSubtask)
    (h : legacyRegistered s.agent = false) :
    legacyAux behav persistOn i σ (s :: rest)
      = ([.fail i (notFoundMsg s.agent), .logErrors], σ) := by
  simp [legacyAux, h]

theorem legacy_shape_success (behav : Nat → LOutcome) (i : Nat) (σ : List Status)
    (s : MSubtask) (rest : List MSubtask)
    (hreg : legacyRegistered s.agent = true) (hb : behav i = .success) :
    legacyAux behav true i σ (s :: rest)
      = (.persist (σ.set i .running) :: .start i :: .complete i ::
           .persist (σ.set i .completed) ::
           (legacyAux behav true (i + 1) (σ.set i .completed) rest).1,
         (legacyAux behav true (i + 1) (σ.set i .completed) rest).2) := by
  simp [legacyAux, hreg, hb]

theorem legacy_shape_failure (behav : Nat → LOutcome) (i : Nat) (σ : List Status)
    (s : MSubtask) (rest : List MSubtask) (e : Option String)
    (hreg : legacyRegistered s.agent = true) (hb : behav i = .failure e) :
    legacyAux behav true i σ (s :: rest)
      = ([.persist (σ.set i .running), .start i, .fail i (orDefaultErr e),
          .persist (σ.set i .failed), .logErrors], σ.set i .failed) := by
  simp [legacyAux, hreg, hb]

theorem legacy_write_before_start (behav : Nat → LOutcome) :
    ∀ (subs : List MSubtask) (i : Nat) (σ : List Status),
      σ.length = i + subs.length →
      ∀ (k x : Nat), (legacyAux behav true i σ subs).1[k]? = some (.start x) →
      ∃ j, j < k ∧ ∃ σ', (legacyAux behav true i σ subs).1[j]? = some (.persist σ')
        ∧ σ'[x]? = some .running := by
  intro subs
  induction subs with
  | nil =>
    intro i σ _ k x hk
    simp only [legacyAux] at hk
    rcases k with _ | k <;> simp at hk
  | cons s rest ih =>
    intro i σ hlen k x hk
    have hlen' : i < σ.length := by simp [List.length_cons] at hlen; omega
    cases hreg : legacyRegistered s.agent with
    | false =>
      have hsh := congrArg Prod.fst (legacy_shape_unreg behav true i σ s rest hreg)
      rw [hsh] at hk
      rcases k with _ | _ | k <;> simp at hk
    | true =>
      cases hb : behav i with
      | success =>
        have hsh := congrArg Prod.fst (legacy_shape_success behav i σ s rest hreg hb)
        rw [hsh] at hk ⊢
        rcases k with _ | _ | _ | _ | m
        · simp at hk
        · simp only [List.getElem?_cons_succ, List.getElem?_cons_zero,
            Option.some.injEq, LEvent.start.injEq] at hk
          subst hk
          exact ⟨0, by omega, σ.set i .running, by simp,
            List.getElem?_set_eq_of_lt _ hlen'⟩
        · simp at hk
        · simp at hk
        · simp only [List.getElem?_cons_succ] at hk
          have hlen2 : (σ.set i .completed).length = (i + 1) + rest.length := by
            simp [List.length_cons] at hlen ⊢; omega
          obtain ⟨j, hj, σ', hpj, hσ'⟩ := ih (i + 1) (σ.set i .completed) hlen2 m x hk
          exact ⟨j + 4, by omega, σ', by
            simp only [List.getElem?_cons_succ]; exact hpj, hσ'⟩
      | failure e =>
        have hsh := congrArg Prod.fst (legacy_shape_failure behav i σ s rest e hreg hb)
        rw [hsh] at hk ⊢
        rcases k with _ | _ | _ | _ | _ | m
        · simp at hk
        · simp only [List.getElem?_cons_succ, List.getElem?_cons_zero,
            Option.some.injEq, LEvent.start.injEq] at hk
          subst hk
          exact ⟨0, by omega, σ.set i .running, by simp,
            List.getElem?_set_eq_of_lt _ hlen'⟩
        · simp at hk
        · simp at hk
        · simp at hk
        · simp at hk

theorem legacy_completed_needs_notify (behav : Nat → LOutcome) :
    ∀ (subs : List MSubtask) (i : Nat) (σ : List Status) (k x : Nat) (σ' : List Status),
      (legacyAux behav true i σ subs).1[k]? = some (.persist σ') →
      σ'[x]? = some .completed →
      σ[x]? = some .completed
      ∨ ∃ j, j < k ∧ (legacyAux behav true i σ subs).1[j]? = some (.complete x) := by
  intro subs
  induction subs with
  | nil =>
    intro i σ k x σ' hk _
    simp only [legacyAux] at hk
    rcases k with _ | k <;> simp at hk
  | cons s rest ih =>
    intro i σ k x σ' hk hσ'
    cases hreg : legacyRegistered s.agent with
    | false =>
      have hsh := congrArg Prod.fst (legacy_shape_unreg behav true i σ s rest hreg)
      rw [hsh] at hk
      rcases k with _ | _ | k <;> simp at hk
    | true =>
      cases hb : behav i with
      | success =>
        have hsh := congrArg Prod.fst (legacy_shape_success behav i σ s rest hreg hb)
        rw [hsh] at hk ⊢
        rcases k with _ | _ | _ | _ | m
        · simp only [List.getElem?_cons_zero, Option.some.injEq,
            LEvent.persist.injEq] at hk
          subst hk
          rcases getElem?_setCases hσ' with ⟨_, habs⟩ | hkeep
          · exact absurd habs (by simp)
          · exact Or.inl hkeep
        · simp at hk
        · simp at hk
        · simp only [List.getElem?_cons_succ, List.getElem?_cons_zero,
            Option.some.injEq, LEvent.persist.injEq] at hk
          subst hk
          rcases getElem?_setCases hσ' with ⟨hxi, _⟩ | hkeep
          · subst hxi
            exact Or.inr ⟨2, by omega, by simp⟩
          · exact Or.inl hkeep
        · simp only [List.getElem?_cons_succ] at hk
          rcases ih (i + 1) (σ.set i .completed) m x σ' hk hσ' with hpre | ⟨j, hj, hcj⟩
          · rcases getElem?_setCases hpre with ⟨hxi, _⟩ | hkeep
            · subst hxi
              exact Or.inr ⟨2, by omega, by simp⟩
            · exact Or.inl hkeep
          · exact Or.inr ⟨j + 4, by omega, by
              simp only [List.getElem?_cons_succ]; exact hcj⟩
      | failure e =>
        have hsh := congrArg Prod.fst (legacy_shape_failure behav i σ s rest e hreg hb)
        rw [hsh] at hk
        rcases k with _ | _ | _ | _ | _ | m
        · simp only [List.getElem?_cons_zero, Option.some.injEq,
            LEvent.persist.injEq] at hk
          subst hk
          rcases getElem?_setCases hσ' with ⟨_, habs⟩ | hkeep
          · exact absurd habs (by simp)
          · exact Or.inl hkeep
        · simp at hk
        · simp at hk
        · simp only [List.getElem?_cons_succ, List.getElem?_cons_zero,
            Option.some.injEq, LEvent.persist.injEq] at hk
          subst hk
          rcases getElem?_setCases hσ' with ⟨_, habs⟩ | hkeep
          · exact absurd habs (by simp)
          · exact Or.inl hkeep
        · simp at hk
        · simp at hk

theorem legacy_failed_needs_notify (behav : Nat → LOutcome) :
    ∀ (subs : List MSubtask) (i : Nat) (σ : List Status) (k x : Nat) (σ' : List Status),
      (legacyAux behav true i σ subs).1[k]? = some (.persist σ') →
      σ'[x]? = some .failed →
      σ[x]? = some .failed
      ∨ ∃ j, j < k ∧ ∃ e, (legacyAux behav true i σ subs).1[j]? = some (.fail x e) := by
  intro subs
  induction subs with
  | nil =>
    intro i σ k x σ' hk _
    simp only [legacyAux] at hk
    rcases k with _ | k <;> simp at hk
  | cons s rest ih =>
    intro i σ k x σ' hk hσ'
    cases hreg : legacyRegistered s.agent with
    | false =>
      have hsh := congrArg Prod.fst (legacy_shape_unreg behav true i σ s rest hreg)
      rw [hsh] at hk
      rcases k with _ | _ | k <;> simp at hk
    | true =>
      cases hb : behav i with
      | success =>
        have hsh := congrArg Prod.fst (legacy_shape_success behav i σ s rest hreg hb)
        rw [hsh] at hk ⊢
        rcases k with _ | _ | _ | _ | m
        · simp only [List.getElem?_cons_zero, Option.some.injEq,
            LEvent.persist.injEq] at hk
          subst hk
          rcases getElem?_setCases hσ' with ⟨_, habs⟩ | hkeep
          · exact absurd habs (by simp)
          · exact Or.inl hkeep
        · simp at hk
        · simp at hk
        · simp only [List.getElem?_cons_succ, List.getElem?_cons_zero,
            Option.some.injEq, LEvent.persist.injEq] at hk
          subst hk
          rcases getElem?_setCases hσ' with ⟨_, habs⟩ | hkeep
          · exact absurd habs (by simp)
          · exact Or.inl hkeep
        · simp only [List.getElem?_cons_succ] at hk
          rcases ih (i + 1) (σ.set i .completed) m x σ' hk hσ' with hpre | ⟨j, hj, e, hcj⟩
          · rcases getElem?_setCases hpre with ⟨_, habs⟩ | hkeep
            · exact absurd habs (by simp)
            · exact Or.inl hkeep
          · exact Or.inr ⟨j + 4, by omega, e, by
              simp only [List.getElem?_cons_succ]; exact hcj⟩
      | failure e =>
        have hsh := congrArg Prod.fst (legacy_shape_failure behav i σ s rest e hreg hb)
        rw [hsh] at hk ⊢
        rcases k with _ | _ | _ | _ | _ | m
        · simp only [List.getElem?_cons_zero, Option.some.injEq,
            LEvent.persist.injEq] at hk
          subst hk
          rcases getElem?_setCases hσ' with ⟨_, habs⟩ | hkeep
          · exact absurd habs (by simp)
          · exact Or.inl hkeep
        · simp at hk
        · simp at hk
        · simp only [List.getElem?_cons_succ, List.getElem?_cons_zero,
            Option.some.injEq, LEvent.persist.injEq] at hk
          subst hk
          rcases getElem?_setCases hσ' with ⟨hxi, _⟩ | hkeep
          · subst hxi
            exact Or.inr ⟨2, by omega, orDefaultErr e, by simp⟩
          · exact Or.inl hkeep
        · simp at hk
        · simp at hk

/-- **C3 counterexample**: with one successful subtask, the persisting
executor emits `onSubtaskComplete` (event index 2) before any persist
whose snapshot records the subtask as `completed` (the only such persist
is at index 3) — the claimed write-before-notify order fails for the
`completed` transition. -/
theorem C3_write_before_notify_counterexample :
    ¬ (∀ (k x : Nat),
        (executePlanSubtasks [cSubClaude] (fun _ => .success) true).1[k]?
            = some (.complete x) →
        ∃ j, j < k ∧ ∃ σ',
          (executePlanSubtasks [cSubClaude] (fun _ => .success) true).1[j]?
              = some (.persist σ')
          ∧ σ'[x]? = some .completed) := by
  intro h
  have h0 : (executePlanSubtasks [cSubClaude] (fun _ => .success) true).1
      = [.persist [.running], .start 0, .complete 0, .persist [.completed],
         .logAllCompleted] := by decide
  rw [h0] at h
  obtain ⟨j, hj, σ', hpj, hσ'⟩ := h 2 0 (by simp)
  interval_cases j
  · simp only [List.getElem?_cons_zero, Option.some.injEq,
      LEvent.persist.injEq] at hpj
    subst hpj
    simp at hσ'
  · simp at hpj

/-- **C3 amended**: in the persisting executor, only the transition to
`running` is write-before-notify — every `onSubtaskStart` is preceded by
a persist whose snapshot already records that subtask `running`.  The
`completed` and `failed` transitions are notify-before-write: any persist
whose snapshot shows a subtask `completed` (resp. `failed`) comes after
the corresponding `onSubtaskComplete` (resp. `onSubtaskFail`), so a crash
between callback and write can over-report those transitions.  (The
current `Orchestrator.runFullFlow` performs no persistence at all.) -/
theorem C3_write_before_notify_amended :
    (∀ (subs : List MSubtask) (behav : Nat → LOutcome) (k x : Nat),
       (executePlanSubtasks subs behav true).1[k]? = some (.start x) →
       ∃ j, j < k ∧ ∃ σ',
         (executePlanSubtasks subs behav true).1[j]? = some (.persist σ')
         ∧ σ'[x]? = some .running)
    ∧ (∀ (subs : List MSubtask) (behav : Nat → LOutcome) (k x : Nat) (σ' : List Status),
       (executePlanSubtasks subs behav true).1[k]? = some (.persist σ') →
       σ'[x]? = some .completed →
       ∃ j, j < k ∧ (executePlanSubtasks subs behav true).1[j]? = some (.complete x))
    ∧ (∀ (subs : List MSubtask) (behav : Nat → LOutcome) (k x : Nat) (σ' : List Status),
       (executePlanSubtasks subs behav true).1[k]? = some (.persist σ') →
       σ'[x]? = some .failed →
       ∃ j, j < k ∧ ∃ e, (executePlanSubtasks subs behav true).1[j]? = some (.fail x e)) := by
  refine ⟨?_, ?_, ?_⟩
  · intro subs behav k x hk
    exact legacy_write_before_start behav subs 0
      (List.replicate subs.length Status.pending) (by simp) k x hk
  · intro subs behav k x σ' hk hσ'
    rcases legacy_completed_needs_notify behav subs 0
        (List.replicate subs.length Status.pending) k x σ' hk hσ' with hpre | hok
    · rw [List.getElem?_replicate] at hpre
      split at hpre <;> simp at hpre
    · exact hok
  · intro subs behav k x σ' hk hσ'
    rcases legacy_failed_needs_notify behav subs 0
        (List.replicate subs.length Status.pending) k x σ' hk hσ' with hpre | hok
    · rw [List.getElem?_replicate] at hpre
      split at hpre <;> simp at hpre
    · exact hok

/-- Witness for C3 at a concrete one-subtask run: the `onSubtaskStart`
at event index 1 has a prior `running` persist. -/
theorem C3_write_before_notify_witness :
    ∃ j, j < 1 ∧ ∃ σ',
      (executePlanSubtasks [cSubClaude] (fun _ => .success) true).1[j]?
          = some (.persist σ')
      ∧ σ'[0]? = some .running :=
  C3_write_before_notify_amended.1 [cSubClaude] (fun _ => .success) 1 0 (by decide)

/-! ## Machinery for the `runFullFlow` loop (C1, C2, C4) -/

theorem drop_eq_cons_of_getElem? {α : Type} {l : List α} {k : Nat} {x : α}
    (h : l[k]? = some x) : l.drop k = x :: l.drop (k + 1) := by
  have hk : k < l.length := (List.getElem?_eq_some.mp h).1
  have h2 := List.getElem?_eq_getElem hk
  rw [h2] at h
  simp only [Option.some.injEq] at h
  rw [List.drop_eq_getElem_cons hk, h]

/-- `execute`'s success flag is independent of the surrounding file
system: on exit code 0 the existence check reads the file just written,
and the fallback path consults only the fallback outcome. -/
theorem execute_success_fs_invariant (sid desc outFile : String) (p : PtyOutcome)
    (f : FbOutcome) (fs fs' : Fs) :
    (execute sid desc outFile p f fs).1.success
      = (execute sid desc outFile p f fs').1.success := by
  cases p with
  | exits code out =>
    by_cases hc : (code == 0) = true
    · simp [execute, hc, fsSet]
    · simp only [execute, hc, Bool.false_eq_true, if_false, adapterCatch]
      cases localFallbackExecution sid desc f <;> simp
  | aborted =>
    simp only [execute, adapterCatch]
    cases localFallbackExecution sid desc f <;> simp

theorem killedEvents_mem (env : AdapterEnv) (abort : Option Nat) (i : Nat) :
    ∀ e ∈ killedEvents env abort i, e = .ptyKilled i := by
  intro e he
  unfold killedEvents at he
  cases heff : effPty env abort i with
  | exits code out => rw [heff] at he; simp at he
  | aborted => rw [heff] at he; simpa using he

theorem runLoop_shape_aborted (env : AdapterEnv) (abort : Option Nat) (i : Nat)
    (fs : Fs) (s : MSubtask) (rest : List MSubtask)
    (h : abortedBefore abort i = true) :
    runLoopAux env abort i fs (s :: rest) = ([.logCancelled], .cancelled, fs) := by
  simp [runLoopAux, h]

theorem runLoop_shape_unreg (env : AdapterEnv) (abort : Option Nat) (i : Nat)
    (fs : Fs) (s : MSubtask) (rest : List MSubtask)
    (h1 : abortedBefore abort i = false) (h2 : registeredAgent s.agent = false) :
    runLoopAux env abort i fs (s :: rest)
      = (.fail i (notFoundMsg s.agent) :: (runLoopAux env abort (i + 1) fs rest).1,
         (runLoopAux env abort (i + 1) fs rest).2) := by
  simp [runLoopAux, h1, h2]

theorem runLoop_shape_success (env : AdapterEnv) (abort : Option Nat) (i : Nat)
    (fs : Fs) (s : MSubtask) (rest : List MSubtask)
    (h1 : abortedBefore abort i = false) (h2 : registeredAgent s.agent = true)
    (hsucc : (execute s.id s.description s.outputFile
        (effPty env abort i) (env.fb i) fs).1.success = true) :
    runLoopAux env abort i fs (s :: rest)
      = (.start i :: killedEvents env abort i ++ .complete i ::
           (runLoopAux env abort (i + 1)
             (execute s.id s.description s.outputFile
               (effPty env abort i) (env.fb i) fs).2 rest).1,
         (runLoopAux env abort (i + 1)
           (execute s.id s.description s.outputFile
             (effPty env abort i) (env.fb i) fs).2 rest).2) := by
  simp [runLoopAux, h1, h2, hsucc]

theorem runLoop_shape_failure (env : AdapterEnv) (abort : Option Nat) (i : Nat)
    (fs : Fs) (s : MSubtask) (rest : List MSubtask)
    (h1 : abortedBefore abort i = false) (h2 : registeredAgent s.agent = true)
    (hfail : (execute s.id s.description s.outputFile
        (effPty env abort i) (env.fb i) fs).1.success = false) :
    runLoopAux env abort i fs (s :: rest)
      = (.start i :: killedEvents env abort i ++
           [.fail i (orDefaultErr (execute s.id s.description s.outputFile
               (effPty env abort i) (env.fb i) fs).1.error), .logAllCompleted],
         .completed,
         (execute s.id s.description s.outputFile
           (effPty env abort i) (env.fb i) fs).2) := by
  simp [runLoopAux, h1, h2, hfail]

/-- A registered subtask whose loop iteration is reached always fires
`onSubtaskStart` first. -/
theorem runLoop_start_head (env : AdapterEnv) (abort : Option Nat) (i : Nat)
    (fs : Fs) (s : MSubtask) (rest : List MSubtask)
    (h1 : abortedBefore abort i = false) (h2 : registeredAgent s.agent = true) :
    RunEvent.start i ∈ (runLoopAux env abort i fs (s :: rest)).1 := by
  by_cases hs : (execute s.id s.description s.outputFile
      (effPty env abort i) (env.fb i) fs).1.success = true
  · rw [congrArg Prod.fst (runLoop_shape_success env abort i fs s rest h1 h2 hs)]
    simp
  · rw [congrArg Prod.fst (runLoop_shape_failure env abort i fs s rest h1 h2
      (by simpa using hs))]
    simp

/-- Iterations before a reached index `k` contribute only events of
earlier subtasks; the loop state at `k` is reached with some intermediate
file system, identical trace tail and final outcome. -/
theorem runLoop_decompose (env : AdapterEnv) (abort : Option Nat) :
    ∀ (k : Nat) (subs : List MSubtask) (i : Nat) (fs : Fs),
      (∀ j, j < k → abortedBefore abort (i + j) = false
         ∧ effPty env abort (i + j) = env.pty (i + j)) →
      (∀ j s', j < k → subs[j]? = some s' → registeredAgent s'.agent = true →
         (execute s'.id s'.description s'.outputFile (env.pty (i + j)) (env.fb (i + j))
           emptyFs).1.success = true) →
      ∃ (pre : List RunEvent) (fs' : Fs),
        (runLoopAux env abort i fs subs).1
          = pre ++ (runLoopAux env abort (i + k) fs' (subs.drop k)).1
        ∧ (runLoopAux env abort i fs subs).2.1
          = (runLoopAux env abort (i + k) fs' (subs.drop k)).2.1
        ∧ ∀ e ∈ pre, ∃ j, j < i + k ∧
            (e = .start j ∨ e = .complete j ∨ (∃ m, e = .fail j m) ∨ e = .ptyKilled j) := by
  intro k
  induction k with
  | zero =>
    intro subs i fs _ _
    exact ⟨[], fs, by simp, by simp, by simp⟩
  | succ k ih =>
    intro subs i fs habort hreach
    cases subs with
    | nil =>
      refine ⟨[], fs, ?_, ?_, by simp⟩
      · simp [runLoopAux]
      · simp [runLoopAux]
    | cons s rest =>
      have h1 : abortedBefore abort i = false ∧ effPty env abort i = env.pty i := by
        have := habort 0 (by omega)
        simpa using this
      have harith : i + 1 + k = i + (k + 1) := by omega
      cases hreg : registeredAgent s.agent with
      | false =>
        obtain ⟨pre', fs', htr, houtc, hpre⟩ := ih rest (i + 1) fs
          (fun j hj => by
            have := habort (j + 1) (by omega)
            constructor
            · have hx : i + 1 + j = i + (j + 1) := by omega
              rw [hx]; exact this.1
            · have hx : i + 1 + j = i + (j + 1) := by omega
              rw [hx]; exact this.2)
          (fun j s' hj hs' hr => by
            have := hreach (j + 1) s' (by omega) (by simpa using hs') hr
            have hx : i + 1 + j = i + (j + 1) := by omega
            rw [hx]; exact this)
        refine ⟨.fail i (notFoundMsg s.agent) :: pre', fs', ?_, ?_, ?_⟩
        · rw [congrArg Prod.fst (runLoop_shape_unreg env abort i fs s rest h1.1 hreg)]
          rw [htr, harith]
          simp
        · have := congrArg (fun q : List RunEvent × RunOutcome × Fs => q.2.1)
            (runLoop_shape_unreg env abort i fs s rest h1.1 hreg)
          simp only at this
          rw [this, houtc, harith]
          simp
        · intro e he
          rcases List.mem_cons.mp he with rfl | he'
          · exact ⟨i, by omega, Or.inr (Or.inr (Or.inl ⟨_, rfl⟩))⟩
          · obtain ⟨j, hj, hcase⟩ := hpre e he'
            exact ⟨j, by omega, hcase⟩
      | true =>
        have hs0 : (s :: rest)[0]? = some s := by simp
        have hsucc : (execute s.id s.description s.outputFile
            (effPty env abort i) (env.fb i) fs).1.success = true := by
          rw [h1.2]
          rw [execute_success_fs_invariant s.id s.description s.outputFile
            (env.pty i) (env.fb i) fs emptyFs]
          have := hreach 0 s (by omega) hs0 hreg
          simpa using this
        obtain ⟨pre', fs', htr, houtc, hpre⟩ := ih rest (i + 1)
          (execute s.id s.description s.outputFile
            (effPty env abort i) (env.fb i) fs).2
          (fun j hj => by
            have := habort (j + 1) (by omega)
            have hx : i + 1 + j = i + (j + 1) := by omega
            rw [hx]
            exact this)
          (fun j s' hj hs' hr => by
            have := hreach (j + 1) s' (by omega) (by simpa using hs') hr
            have hx : i + 1 + j = i + (j + 1) := by omega
            rw [hx]; exact this)
        refine ⟨.start i :: killedEvents env abort i ++ .complete i :: pre', fs',
          ?_, ?_, ?_⟩
        · rw [congrArg Prod.fst
            (runLoop_shape_success env abort i fs s rest h1.1 hreg hsucc)]
          rw [htr, harith]
          simp
        · have := congrArg (fun q : List RunEvent × RunOutcome × Fs => q.2.1)
            (runLoop_shape_success env abort i fs s rest h1.1 hreg hsucc)
          simp only at this
          rw [this, houtc, harith]
          simp
        · intro e he
          rcases List.mem_cons.mp he with rfl | he'
          · exact ⟨i, by omega, Or.inl rfl⟩
          · rcases List.mem_append.mp he' with hk | he''
            · exact ⟨i, by omega, Or.inr (Or.inr (Or.inr
                (killedEvents_mem env abort i e hk)))⟩
            · rcases List.mem_cons.mp he'' with rfl | he3
              · exact ⟨i, by omega, Or.inr (Or.inl rfl)⟩
              · obtain ⟨j, hj, hcase⟩ := hpre e he3
                exact ⟨j, by omega, hcase⟩

theorem effPty_none (env : AdapterEnv) (j : Nat) : effPty env none j = env.pty j := by
  simp [effPty]

theorem effPty_self (env : AdapterEnv) (k : Nat) :
    effPty env (some k) k = .aborted := by
  simp [effPty]

theorem effPty_ne (env : AdapterEnv) (k j : Nat) (h : k ≠ j) :
    effPty env (some k) j = env.pty j := by
  simp [effPty, h]

/-- Prefix decomposition of the legacy persisting executor: if every
subtask before `k` is registered and succeeds, the loop reaches index `k`
with a state agreeing with the initial one from `k` on, and the prefix
trace holds only persists and events of earlier subtasks. -/
theorem legacy_decompose (behav : Nat → LOutcome) :
    ∀ (k : Nat) (subs : List MSubtask) (i : Nat) (σ : List Status),
      (∀ j s', j < k → subs[j]? = some s' →
         legacyRegistered s'.agent = true ∧ behav (i + j) = .success) →
      ∃ (pre : List LEvent) (σ' : List Status),
        (legacyAux behav true i σ subs).1
          = pre ++ (legacyAux behav true (i + k) σ' (subs.drop k)).1
        ∧ (legacyAux behav true i σ subs).2
          = (legacyAux behav true (i + k) σ' (subs.drop k)).2
        ∧ (∀ m, i + k ≤ m → σ'[m]? = σ[m]?)
        ∧ (∀ e ∈ pre, (∃ σ'', e = .persist σ'')
            ∨ ∃ j, j < i + k ∧ (e = .start j ∨ e = .complete j)) := by
  intro k
  induction k with
  | zero =>
    intro subs i σ _
    exact ⟨[], σ, by simp, by simp, fun m _ => rfl, by simp⟩
  | succ k ih =>
    intro subs i σ hreach
    cases subs with
    | nil =>
      exact ⟨[], σ, by simp [legacyAux], by simp [legacyAux], fun m _ => rfl, by simp⟩
    | cons s rest =>
      have h0 := hreach 0 s (by omega) (by simp)
      have hreg : legacyRegistered s.agent = true := h0.1
      have hb : behav i = .success := by simpa using h0.2
      have harith : i + 1 + k = i + (k + 1) := by omega
      have hsh := legacy_shape_success behav i σ s rest hreg hb
      obtain ⟨pre', σ', htr, hst, hσ, hpre⟩ := ih rest (i + 1) (σ.set i .completed)
        (fun j s' hj hs' => by
          have := hreach (j + 1) s' (by omega) (by simpa using hs')
          have hx : i + 1 + j = i + (j + 1) := by omega
          rw [hx]; exact this)
      refine ⟨.persist (σ.set i .running) :: .start i :: .complete i ::
        .persist (σ.set i .completed) :: pre', σ', ?_, ?_, ?_, ?_⟩
      · rw [congrArg Prod.fst hsh, htr, harith]
        simp
      · rw [congrArg Prod.snd hsh, hst, harith]
        simp
      · intro m hm
        rw [hσ m (by omega), List.getElem?_set_ne (by omega)]
      · intro e he
        rcases List.mem_cons.mp he with rfl | he1
        · exact Or.inl ⟨_, rfl⟩
        rcases List.mem_cons.mp he1 with rfl | he2
        · exact Or.inr ⟨i, by omega, Or.inl rfl⟩
        rcases List.mem_cons.mp he2 with rfl | he3
        · exact Or.inr ⟨i, by omega, Or.inr rfl⟩
        rcases List.mem_cons.mp he3 with rfl | he4
        · exact Or.inl ⟨_, rfl⟩
        rcases hpre e he4 with hper | ⟨j, hj, hse⟩
        · exact Or.inl hper
        · exact Or.inr ⟨j, by omega, hse⟩

/-! ## C1: strict fail-fast after an execution failure -/

/-- **C1**: in the current `runFullFlow` loop, if the adapter result for a
reached subtask `k` has status failure, `onSubtaskFail` fires for `k` and
no later subtask starts; in the legacy persisting executor, every subtask
beyond a failed index keeps its initial `pending` status. -/
theorem C1_fail_fast :
    (∀ (subs : List MSubtask) (env : AdapterEnv) (fs : Fs) (k : Nat) (sk : MSubtask),
       subs[k]? = some sk →
       (∀ j s', j < k → subs[j]? = some s' → registeredAgent s'.agent = true →
          (execute s'.id s'.description s'.outputFile (env.pty j) (env.fb j)
            emptyFs).1.success = true) →
       registeredAgent sk.agent = true →
       (execute sk.id sk.description sk.outputFile (env.pty k) (env.fb k)
         emptyFs).1.success = false →
       (∃ e, RunEvent.fail k e ∈ (runFullFlowLoop subs env none fs).1)
       ∧ (∀ m, k < m → RunEvent.start m ∉ (runFullFlowLoop subs env none fs).1))
    ∧ (∀ (subs : List MSubtask) (behav : Nat → LOutcome) (k : Nat) (sk : MSubtask)
         (e : Option String),
       subs[k]? = some sk →
       (∀ j s', j < k → subs[j]? = some s' →
          legacyRegistered s'.agent = true ∧ behav j = .success) →
       legacyRegistered sk.agent = true →
       behav k = .failure e →
       ∀ m, k < m → m < subs.length →
         (executePlanSubtasks subs behav true).2[m]? = some .pending) := by
  constructor
  · intro subs env fs k sk hsk hreach hreg hfail
    obtain ⟨pre, fs', htr, houtc, hpre⟩ := runLoop_decompose env none k subs 0 fs
      (fun j _ => ⟨rfl, effPty_none env (0 + j)⟩)
      (fun j s' hj hs' hr => by simpa using hreach j s' hj hs' hr)
    simp only [Nat.zero_add] at htr houtc hpre
    have hdrop : subs.drop k = sk :: subs.drop (k + 1) := drop_eq_cons_of_getElem? hsk
    have hfail' : (execute sk.id sk.description sk.outputFile
        (effPty env none k) (env.fb k) fs').1.success = false := by
      rw [effPty_none, execute_success_fs_invariant sk.id sk.description sk.outputFile
        (env.pty k) (env.fb k) fs' emptyFs]
      exact hfail
    have hshape := runLoop_shape_failure env none k fs' sk (subs.drop (k + 1))
      rfl hreg hfail'
    constructor
    · refine ⟨orDefaultErr (execute sk.id sk.description sk.outputFile
        (effPty env none k) (env.fb k) fs').1.error, ?_⟩
      unfold runFullFlowLoop
      rw [htr, hdrop, congrArg Prod.fst hshape]
      apply List.mem_append_right
      simp
    · intro m hm
      unfold runFullFlowLoop
      rw [htr, hdrop, congrArg Prod.fst hshape]
      intro hmem
      rcases List.mem_append.mp hmem with hp | ht
      · obtain ⟨j, hj, hcase⟩ := hpre _ hp
        rcases hcase with h | h | ⟨mm, h⟩ | h
        · simp only [RunEvent.start.injEq] at h
          omega
        · exact absurd h (by simp)
        · exact absurd h (by simp)
        · exact absurd h (by simp)
      · rcases List.mem_cons.mp ht with h | ht2
        · simp only [RunEvent.start.injEq] at h
          omega
        · rcases List.mem_append.mp ht2 with hkl | ht3
          · have := killedEvents_mem env none k _ hkl
            simp at this
          · simp at ht3
  · intro subs behav k sk e hsk hreach hreg hfail m hm hmlen
    obtain ⟨pre, σ', htr, hst, hσ, hpre⟩ := legacy_decompose behav k subs 0
      (List.replicate subs.length Status.pending)
      (fun j s' hj hs' => by simpa using hreach j s' hj hs')
    simp only [Nat.zero_add] at hst hσ
    have hdrop : subs.drop k = sk :: subs.drop (k + 1) := drop_eq_cons_of_getElem? hsk
    have hshape := legacy_shape_failure behav k σ' sk (subs.drop (k + 1)) e hreg hfail
    unfold executePlanSubtasks
    rw [hst, hdrop, congrArg Prod.snd hshape]
    rw [List.getElem?_set_ne (by omega), hσ m (by omega), List.getElem?_replicate]
    simp [hmlen]

/-- Witness for C1: a single registered subtask whose pty exits non-zero
and whose local fallback raises, so the adapter reports failure. -/
theorem C1_fail_fast_witness :
    (∃ e, RunEvent.fail 0 e ∈ (runFullFlowLoop [cSubClaude] cEnvFail none emptyFs).1)
    ∧ (∀ m, 0 < m →
        RunEvent.start m ∉ (runFullFlowLoop [cSubClaude] cEnvFail none emptyFs).1) :=
  C1_fail_fast.1 [cSubClaude] cEnvFail emptyFs 0 cSubClaude (by simp)
    (fun j s' hj _ _ => absurd hj (by omega)) (by decide) (by decide)

/-! ## C2: missing adapter is skip-and-continue, not fail-fast -/

/-- **C2 counterexample**: with the first subtask's agent unregistered and
a second registered subtask, `runFullFlow` reports the first via
`onSubtaskFail` and then still executes the second — the run is not
stopped. -/
theorem C2_missing_adapter_counterexample :
    (runFullFlowLoop [cSubNone, cSubPlain] cEnvOk none emptyFs).1
      = [.fail 0 "Agent nonexistent not found!", .start 1, .complete 1,
         .logAllCompleted]
    ∧ RunEvent.start 1 ∈ (runFullFlowLoop [cSubNone, cSubPlain] cEnvOk none emptyFs).1 := by
  exact ⟨by decide, by decide⟩

/-- **C2 amended**: in the current `Orchestrator.runFullFlow` a missing
adapter reports that subtask via `onSubtaskFail` and `continue`s: the next
subtask is still evaluated (started if its adapter exists, reported
missing otherwise).  The fail-fast stop on a missing adapter holds only
in the legacy `executePlanSubtasks` variant, where nothing later starts
and every status from the failed index on stays `pending`. -/
theorem C2_missing_adapter_amended :
    (∀ (subs : List MSubtask) (env : AdapterEnv) (fs : Fs) (k : Nat) (sk : MSubtask),
       subs[k]? = some sk →
       (∀ j s', j < k → subs[j]? = some s' → registeredAgent s'.agent = true →
          (execute s'.id s'.description s'.outputFile (env.pty j) (env.fb j)
            emptyFs).1.success = true) →
       registeredAgent sk.agent = false →
       RunEvent.fail k (notFoundMsg sk.agent) ∈ (runFullFlowLoop subs env none fs).1
       ∧ (∀ s', subs[k + 1]? = some s' → registeredAgent s'.agent = true →
            RunEvent.start (k + 1) ∈ (runFullFlowLoop subs env none fs).1)
       ∧ (∀ s', subs[k + 1]? = some s' → registeredAgent s'.agent = false →
            RunEvent.fail (k + 1) (notFoundMsg s'.agent)
              ∈ (runFullFlowLoop subs env none fs).1))
    ∧ (∀ (subs : List MSubtask) (behav : Nat → LOutcome) (k : Nat) (sk : MSubtask),
       subs[k]? = some sk →
       (∀ j s', j < k → subs[j]? = some s' →
          legacyRegistered s'.agent = true ∧ behav j = .success) →
       legacyRegistered sk.agent = false →
       LEvent.fail k (notFoundMsg sk.agent) ∈ (executePlanSubtasks subs behav true).1
       ∧ (∀ m, k < m → LEvent.start m ∉ (executePlanSubtasks subs behav true).1)
       ∧ (∀ m, k ≤ m → m < subs.length →
            (executePlanSubtasks subs behav true).2[m]? = some .pending)) := by
  constructor
  · intro subs env fs k sk hsk hreach hreg
    obtain ⟨pre, fs', htr, houtc, hpre⟩ := runLoop_decompose env none k subs 0 fs
      (fun j _ => ⟨rfl, effPty_none env (0 + j)⟩)
      (fun j s' hj hs' hr => by simpa using hreach j s' hj hs' hr)
    simp only [Nat.zero_add] at htr houtc hpre
    have hdrop : subs.drop k = sk :: subs.drop (k + 1) := drop_eq_cons_of_getElem? hsk
    have hshape := runLoop_shape_unreg env none k fs' sk (subs.drop (k + 1)) rfl hreg
    refine ⟨?_, ?_, ?_⟩
    · unfold runFullFlowLoop
      rw [htr, hdrop, congrArg Prod.fst hshape]
      apply List.mem_append_right
      simp
    · intro s' hs' hr'
      have hdrop2 : subs.drop (k + 1) = s' :: subs.drop (k + 2) :=
        drop_eq_cons_of_getElem? hs'
      unfold runFullFlowLoop
      rw [htr, hdrop, congrArg Prod.fst hshape, hdrop2]
      apply List.mem_append_right
      apply List.mem_cons_of_mem
      exact runLoop_start_head env none (k + 1) fs' s' (subs.drop (k + 2)) rfl hr'
    · intro s' hs' hr'
      have hdrop2 : subs.drop (k + 1) = s' :: subs.drop (k + 2) :=
        drop_eq_cons_of_getElem? hs'
      unfold runFullFlowLoop
      rw [htr, hdrop, congrArg Prod.fst hshape, hdrop2]
      apply List.mem_append_right
      apply List.mem_cons_of_mem
      rw [congrArg Prod.fst
        (runLoop_shape_unreg env none (k + 1) fs' s' (subs.drop (k + 2)) rfl hr')]
      simp
  · intro subs behav k sk hsk hreach hreg
    obtain ⟨pre, σ', htr, hst, hσ, hpre⟩ := legacy_decompose behav k subs 0
      (List.replicate subs.length Status.pending)
      (fun j s' hj hs' => by simpa using hreach j s' hj hs')
    simp only [Nat.zero_add] at htr hst hσ hpre
    have hdrop : subs.drop k = sk :: subs.drop (k + 1) := drop_eq_cons_of_getElem? hsk
    have hshape := legacy_shape_unreg behav true k σ' sk (subs.drop (k + 1)) hreg
    refine ⟨?_, ?_, ?_⟩
    · unfold executePlanSubtasks
      rw [htr, hdrop, congrArg Prod.fst hshape]
      apply List.mem_append_right
      simp
    · intro m hm
      unfold executePlanSubtasks
      rw [htr, hdrop, congrArg Prod.fst hshape]
      intro hmem
      rcases List.mem_append.mp hmem with hp | ht
      · rcases hpre _ hp with ⟨σ'', habs⟩ | ⟨j, hj, hcase⟩
        · exact absurd habs (by simp)
        · rcases hcase with h | h
          · simp only [LEvent.start.injEq] at h
            omega
          · exact absurd h (by simp)
      · simp at ht
    · intro m hm hmlen
      unfold executePlanSubtasks
      rw [hst, hdrop, congrArg Prod.snd hshape]
      rw [hσ m (by omega), List.getElem?_replicate]
      simp [hmlen]

/-- Witness for C2 at a concrete two-subtask plan whose first agent is
unregistered and whose second is `claude`. -/
theorem C2_missing_adapter_witness :
    RunEvent.fail 0 (notFoundMsg "nonexistent")
      ∈ (runFullFlowLoop [cSubNone, cSubPlain] cEnvOk none emptyFs).1
    ∧ (∀ s', [cSubNone, cSubPlain][1]? = some s' → registeredAgent s'.agent = true →
        RunEvent.start 1 ∈ (runFullFlowLoop [cSubNone, cSubPlain] cEnvOk none emptyFs).1)
    ∧ (∀ s', [cSubNone, cSubPlain][1]? = some s' → registeredAgent s'.agent = false →
        RunEvent.fail 1 (notFoundMsg s'.agent)
          ∈ (runFullFlowLoop [cSubNone, cSubPlain] cEnvOk none emptyFs).1) :=
  C2_missing_adapter_amended.1 [cSubNone, cSubPlain] cEnvOk emptyFs 0 cSubNone
    (by simp) (fun j s' hj _ _ => absurd hj (by omega)) (by decide)

/-! ## C4: cancellation is swallowed by the adapter's fallback -/

/-- **C4 counterexample**: aborting during the only subtask (whose local
fallback then raises) kills the pty but reports the in-flight subtask via
`onSubtaskFail`, and the run returns normally (`completed`), not in a
cancelled state. -/
theorem C4_cancellation_counterexample :
    (runFullFlowLoop [cSubClaude] cEnvAbortFail (some 0) emptyFs).1
      = [.start 0, .ptyKilled 0, .fail 0 "spawn npx ENOENT", .logAllCompleted]
    ∧ (runFullFlowLoop [cSubClaude] cEnvAbortFail (some 0) emptyFs).2.1
        = .completed := by
  exact ⟨by decide, by decide⟩

/-- **C4 amended**: cancelling while subtask `k` executes kills the active
pty, but the adapter catches the `'Aborted'` rejection and attempts the
local fallback: when the fallback succeeds the in-flight subtask is
reported *complete* and the run ends `cancelled` only if a later subtask
exists (an abort during the last subtask returns normally); when the
fallback throws, the subtask is reported via `onSubtaskFail` and the run
returns normally (`completed`).  In all cases no later subtask starts. -/
theorem C4_cancellation_amended :
    ∀ (subs : List MSubtask) (env : AdapterEnv) (fs : Fs) (k : Nat) (sk : MSubtask),
      subs[k]? = some sk →
      (∀ j s', j < k → subs[j]? = some s' → registeredAgent s'.agent = true →
         (execute s'.id s'.description s'.outputFile (env.pty j) (env.fb j)
           emptyFs).1.success = true) →
      registeredAgent sk.agent = true →
      RunEvent.ptyKilled k ∈ (runFullFlowLoop subs env (some k) fs).1
      ∧ (∀ mock, localFallbackExecution sk.id sk.description (env.fb k) = .ok mock →
           RunEvent.complete k ∈ (runFullFlowLoop subs env (some k) fs).1
           ∧ (subs[k + 1]? = none →
               (runFullFlowLoop subs env (some k) fs).2.1 = .completed)
           ∧ (∀ s', subs[k + 1]? = some s' →
               (runFullFlowLoop subs env (some k) fs).2.1 = .cancelled))
      ∧ (∀ msg, localFallbackExecution sk.id sk.description (env.fb k) = .error msg →
           RunEvent.fail k (orDefaultErr (some msg))
             ∈ (runFullFlowLoop subs env (some k) fs).1
           ∧ (runFullFlowLoop subs env (some k) fs).2.1 = .completed)
      ∧ (∀ m, k < m → RunEvent.start m ∉ (runFullFlowLoop subs env (some k) fs).1) := by
  intro subs env fs k sk hsk hreach hreg
  obtain ⟨pre, fs', htr, houtc, hpre⟩ := runLoop_decompose env (some k) k subs 0 fs
    (fun j hj => by
      constructor
      · simp only [Nat.zero_add, abortedBefore]
        simp
        omega
      · exact effPty_ne env k (0 + j) (by omega))
    (fun j s' hj hs' hr => by simpa using hreach j s' hj hs' hr)
  simp only [Nat.zero_add] at htr houtc hpre
  have hdrop : subs.drop k = sk :: subs.drop (k + 1) := drop_eq_cons_of_getElem? hsk
  have h1 : abortedBefore (some k) k = false := by
    simp [abortedBefore]
  have hkill : killedEvents env (some k) k = [.ptyKilled k] := by
    simp [killedEvents, effPty_self]
  cases hlf : localFallbackExecution sk.id sk.description (env.fb k) with
  | ok mock =>
    have hsucc : (execute sk.id sk.description sk.outputFile
        (effPty env (some k) k) (env.fb k) fs').1.success = true := by
      rw [effPty_self]
      simp [execute, adapterCatch, hlf]
    have hshape := runLoop_shape_success env (some k) k fs' sk (subs.drop (k + 1))
      h1 hreg hsucc
    refine ⟨?_, ?_, ?_, ?_⟩
    · unfold runFullFlowLoop
      rw [htr, hdrop, congrArg Prod.fst hshape, hkill]
      apply List.mem_append_right
      simp
    · intro mock' _
      refine ⟨?_, ?_, ?_⟩
      · unfold runFullFlowLoop
        rw [htr, hdrop, congrArg Prod.fst hshape]
        apply List.mem_append_right
        simp
      · intro hnone
        have hlen : subs.length ≤ k + 1 := by
          by_contra hlt
          push_neg at hlt
          rw [List.getElem?_eq_getElem hlt] at hnone
          exact Option.noConfusion hnone
        have hdropnil : subs.drop (k + 1) = [] := List.drop_eq_nil_of_le hlen
        unfold runFullFlowLoop
        rw [houtc, hdrop]
        have := congrArg (fun q : List RunEvent × RunOutcome × Fs => q.2.1) hshape
        simp only at this
        rw [this, hdropnil]
        rfl
      · intro s' hs'
        have hdrop2 : subs.drop (k + 1) = s' :: subs.drop (k + 2) :=
          drop_eq_cons_of_getElem? hs'
        unfold runFullFlowLoop
        rw [houtc, hdrop]
        have := congrArg (fun q : List RunEvent × RunOutcome × Fs => q.2.1) hshape
        simp only at this
        rw [this, hdrop2]
        have habk : abortedBefore (some k) (k + 1) = true := by
          simp [abortedBefore]
        rw [congrArg (fun q : List RunEvent × RunOutcome × Fs => q.2.1)
          (runLoop_shape_aborted env (some k) (k + 1) _ s' (subs.drop (k + 2)) habk)]
    · intro msg hmsg
      exact Except.noConfusion hmsg
    · intro m hm
      unfold runFullFlowLoop
      rw [htr, hdrop, congrArg Prod.fst hshape, hkill]
      intro hmem
      rcases List.mem_append.mp hmem with hp | ht
      · obtain ⟨j, hj, hcase⟩ := hpre _ hp
        rcases hcase with h | h | ⟨mm, h⟩ | h
        · simp only [RunEvent.start.injEq] at h
          omega
        · exact absurd h (by simp)
        · exact absurd h (by simp)
        · exact absurd h (by simp)
      · rcases List.mem_cons.mp ht with h | ht2
        · simp only [RunEvent.start.injEq] at h
          omega
        · rcases List.mem_cons.mp ht2 with h | ht3
          · exact absurd h (by simp)
          · rcases List.mem_cons.mp ht3 with h | ht4
            · exact absurd h (by simp)
            · cases hnext : subs[k + 1]? with
              | none =>
                have hlen : subs.length ≤ k + 1 := by
                  by_contra hlt
                  push_neg at hlt
                  rw [List.getElem?_eq_getElem hlt] at hnext
                  exact Option.noConfusion hnext
                rw [List.drop_eq_nil_of_le hlen] at ht4
                simp [runLoopAux] at ht4
              | some s' =>
                rw [drop_eq_cons_of_getElem? hnext] at ht4
                rw [congrArg Prod.fst (runLoop_shape_aborted env (some k) (k + 1) _
                  s' (subs.drop (k + 2)) (by simp [abortedBefore]))] at ht4
                simp at ht4
  | error msg =>
    have hfail : (execute sk.id sk.description sk.outputFile
        (effPty env (some k) k) (env.fb k) fs').1.success = false := by
      rw [effPty_self]
      simp [execute, adapterCatch, hlf]
    have herr : (execute sk.id sk.description sk.outputFile
        (effPty env (some k) k) (env.fb k) fs').1.error = some msg := by
      rw [effPty_self]
      simp [execute, adapterCatch, hlf]
    have hshape := runLoop_shape_failure env (some k) k fs' sk (subs.drop (k + 1))
      h1 hreg hfail
    refine ⟨?_, ?_, ?_, ?_⟩
    · unfold runFullFlowLoop
      rw [htr, hdrop, congrArg Prod.fst hshape, hkill]
      apply List.mem_append_right
      simp
    · intro mock hmock
      exact Except.noConfusion hmock
    · intro msg' hmsg'
      have hmsg2 : msg = msg' := by
        simpa using Except.error.inj hmsg'
      subst hmsg2
      constructor
      · unfold runFullFlowLoop
        rw [htr, hdrop, congrArg Prod.fst hshape, hkill, herr]
        apply List.mem_append_right
        simp
      · unfold runFullFlowLoop
        rw [houtc, hdrop]
        have := congrArg (fun q : List RunEvent × RunOutcome × Fs => q.2.1) hshape
        simp only at this
        rw [this]
    · intro m hm
      unfold runFullFlowLoop
      rw [htr, hdrop, congrArg Prod.fst hshape, hkill]
      intro hmem
      rcases List.mem_append.mp hmem with hp | ht
      · obtain ⟨j, hj, hcase⟩ := hpre _ hp
        rcases hcase with h | h | ⟨mm, h⟩ | h
        · simp only [RunEvent.start.injEq] at h
          omega
        · exact absurd h (by simp)
        · exact absurd h (by simp)
        · exact absurd h (by simp)
      · rcases List.mem_cons.mp ht with h | ht2
        · simp only [RunEvent.start.injEq] at h
          omega
        · rcases List.mem_cons.mp ht2 with h | ht3
          · exact absurd h (by simp)
          · simp at ht3

/-- Witness for C4: abort during the only subtask with a fallback that
succeeds (description matching no fallback action still writes the mock
result file, so the adapter reports success). -/
theorem C4_cancellation_witness :
    RunEvent.ptyKilled 0 ∈ (runFullFlowLoop [cSubPlain] cEnvOk (some 0) emptyFs).1
    ∧ (∀ mock, localFallbackExecution cSubPlain.id cSubPlain.description
          (cEnvOk.fb 0) = .ok mock →
        RunEvent.complete 0 ∈ (runFullFlowLoop [cSubPlain] cEnvOk (some 0) emptyFs).1
        ∧ ([cSubPlain] : List MSubtask)[1]? = none →
            (runFullFlowLoop [cSubPlain] cEnvOk (some 0) emptyFs).2.1 = .completed) := by
  have h := C4_cancellation_amended [cSubPlain] cEnvOk emptyFs 0 cSubPlain
    (by simp) (fun j s' hj _ _ => absurd hj (by omega)) (by decide)
  exact ⟨h.1, fun mock hmock =>
    fun _ => ((h.2.1 mock hmock).2.1 (by simp))⟩

end AlGaib
